import Mathlib

/-!
# Lorebot: event handlers of `lorebot.go`

A shallow embedding of the handlers of `lorebot.go` (`HandleLoreReact`,
`HandleMessage`, `HandleReaction`, `MessageWorker`, `parseUserID`).

* Go strings are modelled by `String` (sequences of characters). The only
  separators the program uses are one-byte ASCII strings, for which splitting a
  valid UTF-8 text by bytes and by characters agree.
* A handler is a function on the bot state `Lorebot`; a run-time failure of Go
  (index out of range) is the result `none`.
* The buffered channel `MessageQueue` is a list, oldest message first; sending
  appends at the end.
* The Slack client is an oracle for `GetChannelHistory` plus logs of the calls
  made; the Postgres client holds the rows plus a log of the calls made.
* `fmt.Println` output is not modelled.
-/

namespace LoreRepo

/-! ## Go library functions used by the program -/

/-- Go `strings.Replace(s, old, new, 1)` on character lists: the first
occurrence of `old` in `s` is replaced by `new`. -/
def replaceFirst (old new : List Char) : List Char → List Char
  | [] => if old = [] then new else []
  | c :: cs =>
    if old.isPrefixOf (c :: cs) then new ++ (c :: cs).drop old.length
    else c :: replaceFirst old new cs

/-- Go `strings.Replace(s, old, new, 1)`. -/
def stringsReplace1 (s old new : String) : String :=
  ⟨replaceFirst old.data new.data s.data⟩

/-- Go `strings.Split(s, sep)` for a separator of one character, on character
lists: the pieces of `s` between the occurrences of `sep` (always at least one
piece). -/
def splitChars (sep : Char) : List Char → List (List Char)
  | [] => [[]]
  | c :: cs =>
    if c = sep then [] :: splitChars sep cs
    else
      match splitChars sep cs with
      | [] => [[c]]
      | w :: ws => (c :: w) :: ws

/-- Go `strings.Split(s, sep)` for a separator `sep` of one character. -/
def stringsSplit (s : String) (sep : Char) : List String :=
  (splitChars sep s.data).map String.mk

/-- Go `strings.Join(elems, sep)`. -/
def stringsJoin (elems : List String) (sep : String) : String :=
  ⟨List.intercalate sep.data (elems.map String.data)⟩

/-! ## Data -/

/-- The fields of a `slack.Message` of a channel history that the program reads. -/
structure SlackMessage where
  Timestamp : String
  Text : String
  User : String
deriving DecidableEq, Repr

/-- The `slack.History` answer: the program reads `Messages` only. -/
structure History where
  Messages : List SlackMessage
deriving DecidableEq, Repr

/-- The `Message` struct of `lorebot.go`, an outbound message. -/
structure Message where
  ChannelID : String
  Content : String
deriving DecidableEq, Repr

/-- The `slack.PostMessageParameters` fields the program sets. -/
structure PostMessageParameters where
  Username : String
  IconEmoji : String
deriving DecidableEq, Repr

/-- One `PostMessage` call of the transport. -/
structure Post where
  channel : String
  text : String
  params : PostMessageParameters
deriving DecidableEq, Repr

/-- The Slack client: `history` is what `GetChannelHistory` answers for a
channel (an error or the history), `fetched` the channels whose history was
requested and `posted` the posts made, oldest first. -/
structure SlackClient where
  history : String → Except String History
  fetched : List String
  posted : List Post

/-- The call `l.SlackAPI.GetChannelHistory(channelId, params)`. -/
def SlackClient.GetChannelHistory (api : SlackClient) (channelId : String) :
    Except String History × SlackClient :=
  (api.history channelId, { api with fetched := api.fetched ++ [channelId] })

/-- The call `l.SlackAPI.PostMessage(channel, text, params)`. -/
def SlackClient.PostMessage (api : SlackClient) (channel text : String)
    (params : PostMessageParameters) : SlackClient :=
  { api with posted := api.posted ++ [⟨channel, text, params⟩] }

/-- Modelled from the spec: the `Lore` row type is declared outside
`lorebot.go`; the program reads `UserID` and `Message`, the spec's Record adds
the integer counter `upvoteCount`. -/
structure Lore where
  UserID : String
  Message : String
  upvoteCount : Int
deriving DecidableEq, Repr

/-- The calls the program makes on the Postgres client. -/
inductive PgCall where
  | LoreExists (message user : String)
  | UpvoteLore (user message : String)
  | InsertLore (user message : String)
  | RecentLore
  | LoreForUser (user : String)
  | SearchLore (query : String)
deriving DecidableEq, Repr

/-- Is the call one that changes the store (insert or upvote)? -/
def PgCall.isMutation : PgCall → Bool
  | .UpvoteLore _ _ => true
  | .InsertLore _ _ => true
  | _ => false

/-- Is the call an insert? -/
def PgCall.isInsert : PgCall → Bool
  | .InsertLore _ _ => true
  | _ => false

/-- Is the call an upvote? -/
def PgCall.isUpvote : PgCall → Bool
  | .UpvoteLore _ _ => true
  | _ => false

/-- Modelled from the spec: the `PostgresClient` type is declared outside
`lorebot.go`. The Record Store of the spec: the rows in creation order
(`lores`), the default of `upvoteCount`, the number N of rows a "recent" query
returns, and a log of the calls received, oldest first. -/
structure PostgresClient where
  lores : List Lore
  defaultUpvotes : Int
  recentLimit : Nat
  calls : List PgCall
deriving DecidableEq, Repr

/-- Does the row carry the pair (content, author)? -/
def Lore.hasPair (message user : String) (r : Lore) : Bool :=
  decide (r.Message = message) && decide (r.UserID = user)

/-- Does `needle` occur in `hay` as a contiguous run? -/
def containsChars (needle : List Char) : List Char → Bool
  | [] => needle.isEmpty
  | c :: cs => needle.isPrefixOf (c :: cs) || containsChars needle cs

/-- Modelled from the spec: `LoreExists` is defined outside `lorebot.go`.
The spec's `exists(content, author) -> bool`: is there a Record with the pair? -/
def PostgresClient.LoreExists (pg : PostgresClient) (message user : String) :
    Bool × PostgresClient :=
  (pg.lores.any (Lore.hasPair message user),
   { pg with calls := pg.calls ++ [PgCall.LoreExists message user] })

/-- Modelled from the spec: `UpvoteLore` is defined outside `lorebot.go`.
The spec's `incrementUpvote(author, content)`: the counter of the Record with
the pair goes up by one. -/
def PostgresClient.UpvoteLore (pg : PostgresClient) (user message : String) :
    PostgresClient :=
  { pg with
    lores := pg.lores.map fun r =>
      if Lore.hasPair message user r then { r with upvoteCount := r.upvoteCount + 1 } else r
    calls := pg.calls ++ [PgCall.UpvoteLore user message] }

/-- Modelled from the spec: `InsertLore` is defined outside `lorebot.go`.
The spec's `insert(author, content)`: a new Record with the counter at its
default; the store's uniqueness constraint rejects a second Record with the
same pair. -/
def PostgresClient.InsertLore (pg : PostgresClient) (user message : String) :
    PostgresClient :=
  { pg with
    lores :=
      if pg.lores.any (Lore.hasPair message user) then pg.lores
      else pg.lores ++ [⟨user, message, pg.defaultUpvotes⟩]
    calls := pg.calls ++ [PgCall.InsertLore user message] }

/-- Modelled from the spec: `RecentLore` is defined outside `lorebot.go`.
The spec's `recent() -> list<Record>`: the N most recently created Records,
newest first. The Go slice returned is `some rows` (a slice that is not nil,
also when it is empty, as the spec requires); `none` is the nil slice. -/
def PostgresClient.RecentLore (pg : PostgresClient) :
    Option (List Lore) × PostgresClient :=
  (some (pg.lores.reverse.take pg.recentLimit),
   { pg with calls := pg.calls ++ [PgCall.RecentLore] })

/-- Modelled from the spec: `LoreForUser` is defined outside `lorebot.go`.
The spec's `byAuthor(author) -> list<Record>`: all Records of that author. -/
def PostgresClient.LoreForUser (pg : PostgresClient) (user : String) :
    Option (List Lore) × PostgresClient :=
  (some (pg.lores.filter fun r => decide (r.UserID = user)),
   { pg with calls := pg.calls ++ [PgCall.LoreForUser user] })

/-- Modelled from the spec: `SearchLore` is defined outside `lorebot.go`.
The spec's `search(query) -> list<Record>`: the Records whose content
contains the query. -/
def PostgresClient.SearchLore (pg : PostgresClient) (query : String) :
    Option (List Lore) × PostgresClient :=
  (some (pg.lores.filter fun r => containsChars query.data r.Message.data),
   { pg with calls := pg.calls ++ [PgCall.SearchLore query] })

/-- The `Lorebot` struct (the configuration `Conf` is not read by the
handlers). -/
structure Lorebot where
  Pg : PostgresClient
  SlackAPI : SlackClient
  LorebotID : String
  MessageQueue : List Message

/-- The fields of a `slack.MessageEvent` that `HandleMessage` reads. -/
structure MessageEvent where
  Channel : String
  Text : String
deriving DecidableEq, Repr

/-- The `Item` of a reaction event. -/
structure ReactionItem where
  Channel : String
  Timestamp : String
deriving DecidableEq, Repr

/-- The fields of a `slack.ReactionAddedEvent` that `HandleReaction` reads. -/
structure ReactionAddedEvent where
  Reaction : String
  Item : ReactionItem
deriving DecidableEq, Repr

/-! ## The program -/

/-- The function `parseUserID` of `lorebot.go`. -/
def parseUserID (unparsed : String) : String :=
  let userId := stringsReplace1 unparsed "<" ""
  let userId := stringsReplace1 userId ">" ""
  let userId := stringsReplace1 userId "@" ""
  userId

/-- The send `l.MessageQueue <- msg`. -/
def Lorebot.send (l : Lorebot) (msg : Message) : Lorebot :=
  { l with MessageQueue := l.MessageQueue ++ [msg] }

/-- The loop `for _, message := range history.Messages` of `HandleLoreReact`
(lines 38 to 57): every branch taken at a message with the target timestamp
returns. -/
def Lorebot.loreReactLoop (l : Lorebot) (channelId timestamp : String) :
    List SlackMessage → Lorebot
  | [] => l
  | message :: rest =>
    if message.Timestamp = timestamp then
      let (found, pg) := l.Pg.LoreExists message.Text message.User
      if found then
        let pg := pg.UpvoteLore message.User message.Text
        let msg : Message :=
          ⟨channelId, "Lore upvoted: <@" ++ message.User ++ ">: " ++ message.Text⟩
        ({ l with Pg := pg }).send msg
      else if message.User = "" then
        { l with Pg := pg }
      else
        let pg := pg.InsertLore message.User message.Text
        let msg : Message :=
          ⟨channelId, "Lore added: <@" ++ message.User ++ ">: " ++ message.Text⟩
        ({ l with Pg := pg }).send msg
    else
      Lorebot.loreReactLoop l channelId timestamp rest

/-- The method `HandleLoreReact` of `lorebot.go`. -/
def Lorebot.HandleLoreReact (l : Lorebot) (channelId timestamp : String) : Lorebot :=
  let (res, api) := l.SlackAPI.GetChannelHistory channelId
  let l := { l with SlackAPI := api }
  match res with
  | .error _ => l
  | .ok history => l.loreReactLoop channelId timestamp history.Messages

/-- The fixed usage text of the `help` command. -/
def usageText : String :=
  "Usage: @lorebot <help | recent | user <username> | search <query>>"

/-- The loop of lines 91 to 94: `out` grows by one line per row. -/
def formatLores (lores : List Lore) : String :=
  lores.foldl (fun out lore => out ++ "<@" ++ lore.UserID ++ ">" ++ ": " ++ lore.Message ++ "\n") ""

/-- Lines 89 to 97 of `HandleMessage`: when the slice `lores` is not nil, one
message with the formatted rows is sent. -/
def Lorebot.shareLores (l : Lorebot) (channel : String) (lores : Option (List Lore)) :
    Lorebot :=
  match lores with
  | none => l
  | some rows => l.send ⟨channel, formatLores rows⟩

/-- Lines 62 to 98 of `HandleMessage`, on the slice `spl` of line 61; `none`
is the run-time failure of an index out of range. -/
def Lorebot.handleTokens (l : Lorebot) (channel : String) (spl : List String) :
    Option Lorebot :=
  match spl[0]? with
  | none => none
  | some first =>
    let userId := parseUserID first
    match spl[1]? with
    | none => none
    | some cmd =>
      if userId = l.LorebotID then
        if cmd = "help" then
          some (l.send ⟨channel, usageText⟩)
        else if cmd = "recent" then
          let (lores, pg) := l.Pg.RecentLore
          some (({ l with Pg := pg }).shareLores channel lores)
        else if cmd = "user" then
          if spl.length ≠ 3 then some l
          else
            match spl[2]? with
            | none => none
            | some third =>
              let parsedUser := parseUserID third
              let (lores, pg) := l.Pg.LoreForUser parsedUser
              some (({ l with Pg := pg }).shareLores channel lores)
        else if cmd = "search" then
          if spl.length < 3 then some l
          else
            let query := stringsJoin (spl.drop 2) " "
            let (lores, pg) := l.Pg.SearchLore query
            some (({ l with Pg := pg }).shareLores channel lores)
        else
          some (l.shareLores channel none)
      else
        some l

/-- The method `HandleMessage` of `lorebot.go`: line 61 splits the text on the
space character, the rest works on the slice. -/
def Lorebot.HandleMessage (l : Lorebot) (ev : MessageEvent) : Option Lorebot :=
  l.handleTokens ev.Channel (stringsSplit ev.Text ' ')

/-- The method `HandleReaction` of `lorebot.go`. -/
def Lorebot.HandleReaction (l : Lorebot) (ev : ReactionAddedEvent) : Lorebot :=
  if ev.Reaction = "lore" then
    let channel := ev.Item.Channel
    let timestamp := ev.Item.Timestamp
    l.HandleLoreReact channel timestamp
  else l

/-- The loop of `MessageWorker` over the queued messages. -/
def messageWorkerLoop (params : PostMessageParameters) :
    SlackClient → List Message → SlackClient
  | api, [] => api
  | api, msg :: rest =>
    messageWorkerLoop params (api.PostMessage msg.ChannelID msg.Content params) rest

/-- The method `MessageWorker` of `lorebot.go`, run on the messages queued so
far: each is received in order and posted. -/
def Lorebot.MessageWorker (l : Lorebot) : Lorebot :=
  let params : PostMessageParameters := ⟨"Lorebot", ":lore:"⟩
  { l with SlackAPI := messageWorkerLoop params l.SlackAPI l.MessageQueue, MessageQueue := [] }

/-! ## Notions used to state the properties -/

/-- The message `HandleLoreReact` acts on: the first message of the history,
in history order, whose `Timestamp` equals the target timestamp. -/
def History.target (h : History) (timestamp : String) : Option SlackMessage :=
  h.Messages.find? fun m => decide (m.Timestamp = timestamp)

/-- The "Lore added" announcement for a history message. -/
def addedText (m : SlackMessage) : String :=
  "Lore added: <@" ++ m.User ++ ">: " ++ m.Text

/-- The "Lore upvoted" announcement for a history message. -/
def upvotedText (m : SlackMessage) : String :=
  "Lore upvoted: <@" ++ m.User ++ ">: " ++ m.Text

/-- Does the store hold a Record with the pair (content, author)? -/
def PostgresClient.holds (pg : PostgresClient) (content author : String) : Bool :=
  pg.lores.any (Lore.hasPair content author)

/-- The Records of the store with the pair (content, author). -/
def PostgresClient.recordsOf (pg : PostgresClient) (content author : String) : List Lore :=
  pg.lores.filter (Lore.hasPair content author)

/-- The row after one increment of its counter. -/
def Lore.upvoted (r : Lore) : Lore :=
  { r with upvoteCount := r.upvoteCount + 1 }

/-- One reaction handled by the bot: what the transport answers for a history
request at that moment, and the channel and timestamp of the reaction. -/
structure ReactionStep where
  history : String → Except String History
  channelId : String
  timestamp : String

/-- The step is a reaction to a message with the given text and author: the
history request succeeds and the target message has that text and author. -/
def ReactionStep.targets (s : ReactionStep) (content author : String) : Bool :=
  match s.history s.channelId with
  | .error _ => false
  | .ok h =>
    match h.target s.timestamp with
    | none => false
    | some m => decide (m.Text = content) && decide (m.User = author)

/-- `HandleLoreReact` run for one reaction step. -/
def Lorebot.react (l : Lorebot) (s : ReactionStep) : Lorebot :=
  ({ l with SlackAPI := { l.SlackAPI with history := s.history } }).HandleLoreReact
    s.channelId s.timestamp

/-- `HandleLoreReact` run for a sequence of reaction steps, one after the other. -/
def Lorebot.reactAll (l : Lorebot) (steps : List ReactionStep) : Lorebot :=
  steps.foldl Lorebot.react l

/-- The calls a sequence of `k` duplicate reactions makes on the store. -/
def upvoteCalls (content author : String) : Nat → List PgCall
  | 0 => []
  | k + 1 => PgCall.LoreExists content author :: PgCall.UpvoteLore author content ::
      upvoteCalls content author k

/-- Whitespace characters (the ASCII ones of Go `unicode.IsSpace`). -/
def isSpaceChar (c : Char) : Bool :=
  c = ' ' || c = '\t' || c = '\n' || c = '\r' || c = Char.ofNat 11 || c = Char.ofNat 12

/-- Tokenisation on whitespace, on character lists: the maximal runs of
characters that are not whitespace, in order (Go `strings.Fields`). -/
def fieldsChars : List Char → List (List Char)
  | [] => []
  | c :: cs =>
    if isSpaceChar c then fieldsChars cs
    else
      match cs with
      | [] => [[c]]
      | d :: _ =>
        if isSpaceChar d then [c] :: fieldsChars cs
        else
          match fieldsChars cs with
          | [] => [[c]]
          | w :: ws => (c :: w) :: ws

/-- The specification's tokenisation of section 4.2, step 1: "Tokenize `text`
on whitespace". -/
def stringsFields (s : String) : List String :=
  (fieldsChars s.data).map String.mk

/-- A token: not empty and free of whitespace. -/
def isToken (t : String) : Bool :=
  !t.data.isEmpty && t.data.all fun c => !isSpaceChar c

/-- One line of a listing as the specification writes it: the mention of the
author, a colon and a space, the content. -/
def loreLine (r : Lore) : String :=
  "<@" ++ r.UserID ++ ">: " ++ r.Message

/-- The body of a listing: the line of each row, in order, each followed by a
newline character. -/
def listing : List Lore → String
  | [] => ""
  | r :: rs => loreLine r ++ "\n" ++ listing rs

/-- The commands the dispatcher knows. -/
def knownCommands : List String :=
  ["help", "recent", "user", "search"]

/-- The state after the history request of `HandleLoreReact`: only the log of
requested channels has grown. -/
def Lorebot.afterFetch (l : Lorebot) (channelId : String) : Lorebot :=
  { l with SlackAPI := { l.SlackAPI with fetched := l.SlackAPI.fetched ++ [channelId] } }

/-! ## Sample states -/

/-- A transport answering every history request with the given messages. -/
def sampleSlack (msgs : List SlackMessage) : SlackClient :=
  ⟨fun _ => .ok ⟨msgs⟩, [], []⟩

/-- A transport whose history requests fail. -/
def failingSlack : SlackClient :=
  ⟨fun _ => .error "timeout", [], []⟩

/-- A store with the given rows, default counter 0. -/
def sampleStore (rows : List Lore) : PostgresClient :=
  ⟨rows, 0, 10, []⟩

/-- A bot with identifier `UBOT`. -/
def sampleBot (rows : List Lore) (msgs : List SlackMessage) : Lorebot :=
  ⟨sampleStore rows, sampleSlack msgs, "UBOT", []⟩

/-- A bot whose history requests fail. -/
def offlineBot (rows : List Lore) : Lorebot :=
  ⟨sampleStore rows, failingSlack, "UBOT", []⟩

/-- A reaction in channel `C` to the message with timestamp `1`, the history
holding the given messages. -/
def sampleStep (msgs : List SlackMessage) : ReactionStep :=
  ⟨fun _ => .ok ⟨msgs⟩, "C", "1"⟩

/-! # Theorems -/

/-! ## The reaction resolver -/

theorem loreReactLoop_target (l : Lorebot) (channelId timestamp : String)
    (msgs : List SlackMessage) :
    l.loreReactLoop channelId timestamp msgs =
      match History.target ⟨msgs⟩ timestamp with
      | none => l
      | some m => l.loreReactLoop channelId timestamp [m] := by
  induction msgs with
  | nil => simp [History.target, Lorebot.loreReactLoop]
  | cons a rest ih =>
    by_cases h : a.Timestamp = timestamp
    · simp [History.target, Lorebot.loreReactLoop, h]
    · rw [Lorebot.loreReactLoop, if_neg h, ih]
      simp [History.target, h]

theorem target_timestamp {h : History} {timestamp : String} {m : SlackMessage}
    (hm : h.target timestamp = some m) : m.Timestamp = timestamp := by
  have := List.find?_some hm
  simpa using this

theorem HandleLoreReact_error (l : Lorebot) (channelId timestamp e : String)
    (he : l.SlackAPI.history channelId = .error e) :
    l.HandleLoreReact channelId timestamp = l.afterFetch channelId := by
  simp [Lorebot.HandleLoreReact, SlackClient.GetChannelHistory, he, Lorebot.afterFetch]

theorem HandleLoreReact_none (l : Lorebot) (channelId timestamp : String) (h : History)
    (hh : l.SlackAPI.history channelId = .ok h) (hn : h.target timestamp = none) :
    l.HandleLoreReact channelId timestamp = l.afterFetch channelId := by
  simp [Lorebot.HandleLoreReact, SlackClient.GetChannelHistory, hh, loreReactLoop_target, hn,
    Lorebot.afterFetch]

theorem HandleLoreReact_upvote (l : Lorebot) (channelId timestamp : String) (h : History)
    (m : SlackMessage)
    (hh : l.SlackAPI.history channelId = .ok h) (hm : h.target timestamp = some m)
    (hex : l.Pg.holds m.Text m.User = true) :
    l.HandleLoreReact channelId timestamp =
      { l.afterFetch channelId with
        Pg := (l.Pg.LoreExists m.Text m.User).2.UpvoteLore m.User m.Text
        MessageQueue := l.MessageQueue ++ [⟨channelId, upvotedText m⟩] } := by
  have ht := target_timestamp hm
  simp only [PostgresClient.holds] at hex
  simp [Lorebot.HandleLoreReact, SlackClient.GetChannelHistory, hh, loreReactLoop_target, hm,
    Lorebot.afterFetch, Lorebot.loreReactLoop, ht, PostgresClient.LoreExists, hex, Lorebot.send,
    upvotedText]

theorem HandleLoreReact_guard (l : Lorebot) (channelId timestamp : String) (h : History)
    (m : SlackMessage)
    (hh : l.SlackAPI.history channelId = .ok h) (hm : h.target timestamp = some m)
    (hex : l.Pg.holds m.Text m.User = false) (hu : m.User = "") :
    l.HandleLoreReact channelId timestamp =
      { l.afterFetch channelId with Pg := (l.Pg.LoreExists m.Text m.User).2 } := by
  have ht := target_timestamp hm
  simp only [PostgresClient.holds] at hex
  simp [Lorebot.HandleLoreReact, SlackClient.GetChannelHistory, hh, loreReactLoop_target, hm,
    Lorebot.afterFetch, Lorebot.loreReactLoop, ht, PostgresClient.LoreExists, hex]
  intro hne
  exact absurd hu hne

theorem HandleLoreReact_insert (l : Lorebot) (channelId timestamp : String) (h : History)
    (m : SlackMessage)
    (hh : l.SlackAPI.history channelId = .ok h) (hm : h.target timestamp = some m)
    (hex : l.Pg.holds m.Text m.User = false) (hu : m.User ≠ "") :
    l.HandleLoreReact channelId timestamp =
      { l.afterFetch channelId with
        Pg := (l.Pg.LoreExists m.Text m.User).2.InsertLore m.User m.Text
        MessageQueue := l.MessageQueue ++ [⟨channelId, addedText m⟩] } := by
  have ht := target_timestamp hm
  simp only [PostgresClient.holds] at hex
  simp [Lorebot.HandleLoreReact, SlackClient.GetChannelHistory, hh, loreReactLoop_target, hm,
    Lorebot.afterFetch, Lorebot.loreReactLoop, ht, PostgresClient.LoreExists, hex, hu,
    Lorebot.send, addedText]

/-! ## The store under a sequence of reactions -/

theorem holds_false_iff (pg : PostgresClient) (content author : String) :
    pg.holds content author = false ↔ pg.recordsOf content author = [] := by
  simp [PostgresClient.holds, PostgresClient.recordsOf, List.filter_eq_nil_iff]

theorem holds_of_recordsOf {pg : PostgresClient} {content author : String} {r : Lore}
    (h : pg.recordsOf content author = [r]) : pg.holds content author = true := by
  cases hh : pg.holds content author with
  | true => rfl
  | false => rw [(holds_false_iff pg content author).1 hh] at h; cases h

theorem hasPair_upvote (content author : String) (r : Lore) :
    Lore.hasPair content author
      (if Lore.hasPair content author r = true then
        { r with upvoteCount := r.upvoteCount + 1 } else r) =
      Lore.hasPair content author r := by
  split <;> rfl

theorem recordsOf_upvote (pg pg0 : PostgresClient) (content author : String)
    (hl : pg.lores = pg0.lores) :
    (pg.UpvoteLore author content).recordsOf content author =
      (pg0.recordsOf content author).map Lore.upvoted := by
  simp only [PostgresClient.UpvoteLore, PostgresClient.recordsOf, hl, List.filter_map]
  have hc : (Lore.hasPair content author ∘ fun r =>
      if Lore.hasPair content author r = true then
        { r with upvoteCount := r.upvoteCount + 1 } else r) = Lore.hasPair content author :=
    funext fun r => hasPair_upvote content author r
  rw [hc]
  apply List.map_congr_left
  intro r hr
  have hp : Lore.hasPair content author r = true := (List.mem_filter.1 hr).2
  simp [hp, Lore.upvoted]

theorem targets_elim {s : ReactionStep} {content author : String}
    (h : s.targets content author = true) :
    ∃ hist m, s.history s.channelId = .ok hist ∧ hist.target s.timestamp = some m ∧
      m.Text = content ∧ m.User = author := by
  unfold ReactionStep.targets at h
  split at h
  · cases h
  · rename_i hist hh
    split at h
    · cases h
    · rename_i m hm
      simp at h
      exact ⟨hist, m, hh, hm, h.1, h.2⟩

theorem react_first (l : Lorebot) (s : ReactionStep) (content author : String)
    (ha : author ≠ "") (h0 : l.Pg.holds content author = false)
    (hs : s.targets content author = true) :
    (l.react s).Pg.recordsOf content author = [⟨author, content, l.Pg.defaultUpvotes⟩] ∧
    (l.react s).Pg.calls =
      l.Pg.calls ++ [PgCall.LoreExists content author, PgCall.InsertLore author content] ∧
    (l.react s).Pg.defaultUpvotes = l.Pg.defaultUpvotes := by
  obtain ⟨hist, m, hh, hm, rfl, rfl⟩ := targets_elim hs
  have key := HandleLoreReact_insert
    ({ l with SlackAPI := { l.SlackAPI with history := s.history } })
    s.channelId s.timestamp hist m hh hm h0 ha
  unfold Lorebot.react
  rw [key]
  have h0r := (holds_false_iff _ _ _).1 h0
  simp only [PostgresClient.holds] at h0
  simp only [PostgresClient.recordsOf] at h0r
  simp [PostgresClient.InsertLore, PostgresClient.LoreExists, PostgresClient.recordsOf, h0, h0r,
    Lore.hasPair]

theorem react_again (l : Lorebot) (s : ReactionStep) (content author : String) (r : Lore)
    (h0 : l.Pg.recordsOf content author = [r])
    (hs : s.targets content author = true) :
    (l.react s).Pg.recordsOf content author = [r.upvoted] ∧
    (l.react s).Pg.calls =
      l.Pg.calls ++ [PgCall.LoreExists content author, PgCall.UpvoteLore author content] ∧
    (l.react s).Pg.defaultUpvotes = l.Pg.defaultUpvotes := by
  obtain ⟨hist, m, hh, hm, rfl, rfl⟩ := targets_elim hs
  have key := HandleLoreReact_upvote
    ({ l with SlackAPI := { l.SlackAPI with history := s.history } })
    s.channelId s.timestamp hist m hh hm (holds_of_recordsOf h0)
  unfold Lorebot.react
  rw [key]
  refine ⟨?_, ?_, ?_⟩
  · have h := recordsOf_upvote (l.Pg.LoreExists m.Text m.User).2 l.Pg m.Text m.User rfl
    rw [h0] at h
    exact h
  · simp [PostgresClient.UpvoteLore, PostgresClient.LoreExists]
  · simp [PostgresClient.UpvoteLore, PostgresClient.LoreExists]

theorem reactAll_again (content author : String) (rest : List ReactionStep) :
    ∀ (l : Lorebot) (a c : String) (n : Int),
      l.Pg.recordsOf content author = [⟨a, c, n⟩] →
      (∀ s ∈ rest, s.targets content author = true) →
      (l.reactAll rest).Pg.recordsOf content author = [⟨a, c, n + rest.length⟩] ∧
      (l.reactAll rest).Pg.calls = l.Pg.calls ++ upvoteCalls content author rest.length := by
  induction rest with
  | nil => intro l a c n h0 _; simp [Lorebot.reactAll, h0, upvoteCalls]
  | cons s rest ih =>
    intro l a c n h0 hr
    have hs := react_again l s content author _ h0 (hr s (List.mem_cons_self _ _))
    have := ih (l.react s) a c (n + 1) (by simpa [Lore.upvoted] using hs.1)
      (fun t ht => hr t (List.mem_cons_of_mem _ ht))
    simp only [Lorebot.reactAll, List.foldl_cons] at this ⊢
    rw [this.1, this.2, hs.2.1]
    constructor
    · simp; ring
    · simp [upvoteCalls]

theorem upvoteCalls_counts (content author : String) (k : Nat) :
    (upvoteCalls content author k).countP PgCall.isInsert = 0 ∧
    (upvoteCalls content author k).countP PgCall.isUpvote = k := by
  induction k with
  | zero => simp [upvoteCalls]
  | succ k ih => simp [upvoteCalls, PgCall.isInsert, PgCall.isUpvote, ih]


/-! ## C1: sequential de-duplication -/

/-- C1 (amended): for every content and every author other than the empty
string, starting from a store with no Record of the pair, after one
`HandleLoreReact` whose target message (the first message of the history with
the target timestamp) has that text and author, the store holds exactly one
Record with the pair, its counter at the default; after `K` further such
invocations it still holds exactly one, its counter is the default plus `K`,
and the store received one insert and `K` upvotes. -/
theorem dedup_sequential (l : Lorebot) (content author : String) (first : ReactionStep)
    (rest : List ReactionStep) (ha : author ≠ "")
    (h0 : l.Pg.holds content author = false)
    (h1 : first.targets content author = true)
    (hr : ∀ s ∈ rest, s.targets content author = true) :
    (l.react first).Pg.recordsOf content author =
      [⟨author, content, l.Pg.defaultUpvotes⟩] ∧
    (l.reactAll (first :: rest)).Pg.recordsOf content author =
      [⟨author, content, l.Pg.defaultUpvotes + rest.length⟩] ∧
    ∃ new, (l.reactAll (first :: rest)).Pg.calls = l.Pg.calls ++ new ∧
      new.countP PgCall.isInsert = 1 ∧ new.countP PgCall.isUpvote = rest.length := by
  have hf := react_first l first content author ha h0 h1
  have hrest := reactAll_again content author rest (l.react first) author content
    l.Pg.defaultUpvotes hf.1 hr
  have hc := upvoteCalls_counts content author rest.length
  refine ⟨hf.1, ?_, ?_⟩
  · simpa [Lorebot.reactAll] using hrest.1
  · refine ⟨PgCall.LoreExists content author :: PgCall.InsertLore author content ::
      upvoteCalls content author rest.length, ?_, ?_, ?_⟩
    · have h2 := hrest.2
      simp only [Lorebot.reactAll, List.foldl_cons] at h2 ⊢
      rw [h2, hf.2.1]
      simp
    · simp [PgCall.isInsert, hc.1]
    · simp [PgCall.isUpvote, hc.2]

/-- Witness of C1 (amended): three reactions to the message `hi` of `UA`. -/
theorem dedup_sequential_witness :
    ((sampleBot [] []).react (sampleStep [⟨"1", "hi", "UA"⟩])).Pg.recordsOf "hi" "UA" =
      [⟨"UA", "hi", 0⟩] ∧
    ((sampleBot [] []).reactAll
        [sampleStep [⟨"1", "hi", "UA"⟩], sampleStep [⟨"0", "x", "UB"⟩, ⟨"1", "hi", "UA"⟩],
         sampleStep [⟨"1", "hi", "UA"⟩]]).Pg.recordsOf "hi" "UA" = [⟨"UA", "hi", 2⟩] :=
  have h := dedup_sequential (sampleBot [] []) "hi" "UA" (sampleStep [⟨"1", "hi", "UA"⟩])
    [sampleStep [⟨"0", "x", "UB"⟩, ⟨"1", "hi", "UA"⟩], sampleStep [⟨"1", "hi", "UA"⟩]]
    (by decide) (by decide) (by decide)
    (by intro s hs; simp at hs; rcases hs with rfl | rfl <;> decide)
  ⟨h.1, h.2.1⟩

/-- C1 as stated fails in two ways. With the empty author identifier the guard
of line 48 returns before the insert: the store has no Record of the pair after
the reaction. With two history messages of the same timestamp the first one is
recorded, so a history that contains the message `hi` of `UA` at the target
timestamp does not lead to a Record of that pair. -/
theorem dedup_sequential_counterexample :
    ((sampleBot [] []).Pg.holds "hi" "" = false ∧
      (sampleStep [⟨"1", "hi", ""⟩]).targets "hi" "" = true ∧
      ((sampleBot [] []).react (sampleStep [⟨"1", "hi", ""⟩])).Pg.recordsOf "hi" "" = []) ∧
    ((sampleBot [] []).Pg.holds "hi" "UA" = false ∧
      (⟨"1", "hi", "UA"⟩ : SlackMessage) ∈ [(⟨"1", "other", "UB"⟩ : SlackMessage), ⟨"1", "hi", "UA"⟩] ∧
      ((sampleBot [] []).react
        (sampleStep [⟨"1", "other", "UB"⟩, ⟨"1", "hi", "UA"⟩])).Pg.recordsOf "hi" "UA" = []) := by
  decide


/-! ## C2: the self-reference guard -/

/-- C2 at its failing input: the bot's identifier is `UBOT`, the store is
empty and the target message is authored by `UBOT`. The guard of line 48
compares the author with the empty string and not with `LorebotID`, so the
message passes it: `InsertLore` is called, the Record is created and the
"Lore added" message is enqueued, where C2 asks for no Record and no message. -/
theorem self_reference_guard_fails :
    (sampleBot [] [⟨"1", "hi", "UBOT"⟩]).LorebotID = "UBOT" ∧
    History.target ⟨[⟨"1", "hi", "UBOT"⟩]⟩ "1" = some ⟨"1", "hi", "UBOT"⟩ ∧
    ((sampleBot [] [⟨"1", "hi", "UBOT"⟩]).HandleLoreReact "C" "1").Pg.calls =
      [PgCall.LoreExists "hi" "UBOT", PgCall.InsertLore "UBOT" "hi"] ∧
    ((sampleBot [] [⟨"1", "hi", "UBOT"⟩]).HandleLoreReact "C" "1").Pg.lores =
      [⟨"UBOT", "hi", 0⟩] ∧
    ((sampleBot [] [⟨"1", "hi", "UBOT"⟩]).HandleLoreReact "C" "1").MessageQueue =
      [⟨"C", "Lore added: <@UBOT>: hi"⟩] := by
  decide

/-! ## C3: the announcements -/

/-- C3 (amended): when `HandleLoreReact(channel, ts)` finds the target message
with author `A` and text `T`: if no Record `(T, A)` exists and `A` is not the
empty string, it inserts the Record (counter at the default) and enqueues
exactly the message to `channel` with body `"Lore added: <@" + A + ">: " + T`;
if a Record `(T, A)` exists, it increments the counter of the Records with that
pair, creates no Record, and enqueues exactly the message to `channel` with
body `"Lore upvoted: <@" + A + ">: " + T`. -/
theorem announcement (l : Lorebot) (channelId timestamp : String) (h : History)
    (m : SlackMessage) (hh : l.SlackAPI.history channelId = .ok h)
    (hm : h.target timestamp = some m) :
    (l.Pg.holds m.Text m.User = false → m.User ≠ "" →
      (l.HandleLoreReact channelId timestamp).Pg.lores =
        l.Pg.lores ++ [⟨m.User, m.Text, l.Pg.defaultUpvotes⟩] ∧
      (l.HandleLoreReact channelId timestamp).Pg.calls =
        l.Pg.calls ++ [PgCall.LoreExists m.Text m.User, PgCall.InsertLore m.User m.Text] ∧
      (l.HandleLoreReact channelId timestamp).MessageQueue =
        l.MessageQueue ++ [⟨channelId, "Lore added: <@" ++ m.User ++ ">: " ++ m.Text⟩]) ∧
    (l.Pg.holds m.Text m.User = true →
      (l.HandleLoreReact channelId timestamp).Pg.lores =
        l.Pg.lores.map (fun r => if Lore.hasPair m.Text m.User r then r.upvoted else r) ∧
      (l.HandleLoreReact channelId timestamp).Pg.calls =
        l.Pg.calls ++ [PgCall.LoreExists m.Text m.User, PgCall.UpvoteLore m.User m.Text] ∧
      (l.HandleLoreReact channelId timestamp).MessageQueue =
        l.MessageQueue ++ [⟨channelId, "Lore upvoted: <@" ++ m.User ++ ">: " ++ m.Text⟩]) := by
  constructor
  · intro hex hu
    rw [HandleLoreReact_insert l channelId timestamp h m hh hm hex hu]
    simp only [PostgresClient.holds] at hex
    simp [PostgresClient.InsertLore, PostgresClient.LoreExists, hex, addedText]
  · intro hex
    rw [HandleLoreReact_upvote l channelId timestamp h m hh hm hex]
    simp [PostgresClient.UpvoteLore, PostgresClient.LoreExists, upvotedText, Lore.upvoted]

/-- Witness of C3 (amended): the scenario of the specification, user `A`
posting "the server caught fire again", first reaction. -/
theorem announcement_witness :
    ((sampleBot [] [⟨"1", "the server caught fire again", "A"⟩]).HandleLoreReact
        "C" "1").Pg.lores = [⟨"A", "the server caught fire again", 0⟩] ∧
    ((sampleBot [] [⟨"1", "the server caught fire again", "A"⟩]).HandleLoreReact
        "C" "1").MessageQueue = [⟨"C", "Lore added: <@A>: the server caught fire again"⟩] :=
  have h := (announcement (sampleBot [] [⟨"1", "the server caught fire again", "A"⟩]) "C" "1"
    ⟨[⟨"1", "the server caught fire again", "A"⟩]⟩ ⟨"1", "the server caught fire again", "A"⟩
    rfl (by decide)).1 (by decide) (by decide)
  ⟨h.1, h.2.2⟩

/-- C3 as stated fails for the empty author identifier: the target message is
found, no Record with its pair exists, and yet nothing is inserted and nothing
is enqueued. -/
theorem announcement_counterexample :
    History.target ⟨[⟨"1", "hi", ""⟩]⟩ "1" = some ⟨"1", "hi", ""⟩ ∧
    (sampleBot [] [⟨"1", "hi", ""⟩]).Pg.holds "hi" "" = false ∧
    ((sampleBot [] [⟨"1", "hi", ""⟩]).HandleLoreReact "C" "1").Pg.lores = [] ∧
    ((sampleBot [] [⟨"1", "hi", ""⟩]).HandleLoreReact "C" "1").MessageQueue = [] := by
  decide

/-! ## C4: at most one message and one mutation -/

/-- C4: for every bot state (whatever the transport answers: an error, or a
history, also one with several messages of the same timestamp), channel and
timestamp, one `HandleLoreReact` invocation enqueues at most one message and
makes at most one mutating call (insert or upvote) on the store. -/
theorem at_most_one_effect (l : Lorebot) (channelId timestamp : String) :
    ((l.HandleLoreReact channelId timestamp).MessageQueue = l.MessageQueue ∨
      ∃ msg, (l.HandleLoreReact channelId timestamp).MessageQueue = l.MessageQueue ++ [msg]) ∧
    ∃ new, (l.HandleLoreReact channelId timestamp).Pg.calls = l.Pg.calls ++ new ∧
      new.countP PgCall.isMutation ≤ 1 := by
  cases hh : l.SlackAPI.history channelId with
  | error e =>
    rw [HandleLoreReact_error l channelId timestamp e hh]
    exact ⟨Or.inl rfl, [], by simp [Lorebot.afterFetch], by simp⟩
  | ok h =>
    cases hm : h.target timestamp with
    | none =>
      rw [HandleLoreReact_none l channelId timestamp h hh hm]
      exact ⟨Or.inl rfl, [], by simp [Lorebot.afterFetch], by simp⟩
    | some m =>
      cases hex : l.Pg.holds m.Text m.User with
      | true =>
        rw [HandleLoreReact_upvote l channelId timestamp h m hh hm hex]
        exact ⟨Or.inr ⟨_, rfl⟩, [PgCall.LoreExists m.Text m.User, PgCall.UpvoteLore m.User m.Text],
          by simp [PostgresClient.UpvoteLore, PostgresClient.LoreExists],
          by simp [PgCall.isMutation]⟩
      | false =>
        by_cases hu : m.User = ""
        · rw [HandleLoreReact_guard l channelId timestamp h m hh hm hex hu]
          exact ⟨Or.inl rfl, [PgCall.LoreExists m.Text m.User],
            by simp [PostgresClient.LoreExists], by simp [PgCall.isMutation]⟩
        · rw [HandleLoreReact_insert l channelId timestamp h m hh hm hex hu]
          exact ⟨Or.inr ⟨_, rfl⟩,
            [PgCall.LoreExists m.Text m.User, PgCall.InsertLore m.User m.Text],
            by simp [PostgresClient.InsertLore, PostgresClient.LoreExists],
            by simp [PgCall.isMutation]⟩

/-! ## C5: target not found, or history request failed -/

/-- C5: if the history request fails, or no message of the returned history
has the target timestamp, `HandleLoreReact` leaves the store as it was (rows
and call log: no exists, insert or upvote call) and enqueues nothing; only the
history request itself has been made. -/
theorem no_target_no_effect (l : Lorebot) (channelId timestamp : String)
    (h : (∃ e, l.SlackAPI.history channelId = .error e) ∨
      ∃ hist, l.SlackAPI.history channelId = .ok hist ∧
        ∀ m ∈ hist.Messages, m.Timestamp ≠ timestamp) :
    (l.HandleLoreReact channelId timestamp).Pg = l.Pg ∧
    (l.HandleLoreReact channelId timestamp).MessageQueue = l.MessageQueue ∧
    l.HandleLoreReact channelId timestamp = l.afterFetch channelId := by
  have key : l.HandleLoreReact channelId timestamp = l.afterFetch channelId := by
    rcases h with ⟨e, he⟩ | ⟨hist, hh, hn⟩
    · exact HandleLoreReact_error l channelId timestamp e he
    · apply HandleLoreReact_none l channelId timestamp hist hh
      simp only [History.target, List.find?_eq_none]
      intro m hmem
      simpa using hn m hmem
  rw [key]
  exact ⟨rfl, rfl, rfl⟩

/-- Witness of C5: a failed history request, and a history without the target. -/
theorem no_target_no_effect_witness :
    ((offlineBot [⟨"UA", "hi", 0⟩]).HandleLoreReact "C" "1").Pg = (offlineBot [⟨"UA", "hi", 0⟩]).Pg ∧
    ((offlineBot [⟨"UA", "hi", 0⟩]).HandleLoreReact "C" "1").MessageQueue = [] :=
  have h := no_target_no_effect (offlineBot [⟨"UA", "hi", 0⟩]) "C" "1" (Or.inl ⟨"timeout", rfl⟩)
  ⟨h.1, h.2.1⟩


/-! ## Splitting and joining -/

theorem splitChars_ne_nil (sep : Char) (s : List Char) : splitChars sep s ≠ [] := by
  cases s with
  | nil => simp [splitChars]
  | cons c cs =>
    simp only [splitChars]
    split
    · simp
    · split <;> simp

theorem splitChars_no_sep (sep : Char) (s : List Char) (h : sep ∉ s) :
    splitChars sep s = [s] := by
  induction s with
  | nil => rfl
  | cons c cs ih =>
    have hc : ¬ c = sep := fun e => h (e ▸ List.mem_cons_self _ _)
    have hcs : sep ∉ cs := fun m => h (List.mem_cons_of_mem _ m)
    simp [splitChars, hc, ih hcs]

theorem splitChars_append (sep : Char) (a b : List Char) (h : sep ∉ a) :
    splitChars sep (a ++ sep :: b) = a :: splitChars sep b := by
  induction a with
  | nil => simp [splitChars]
  | cons c cs ih =>
    have hc : ¬ c = sep := fun e => h (e ▸ List.mem_cons_self _ _)
    have hcs : sep ∉ cs := fun m => h (List.mem_cons_of_mem _ m)
    simp [splitChars, hc, ih hcs]

theorem intercalate_splitChars (sep : Char) (s : List Char) :
    List.intercalate [sep] (splitChars sep s) = s := by
  induction s with
  | nil => rfl
  | cons c cs ih =>
    by_cases hc : c = sep
    · subst hc
      simp only [splitChars, if_true]
      cases hs : splitChars c cs with
      | nil => exact absurd hs (splitChars_ne_nil _ _)
      | cons w ws =>
        rw [hs] at ih
        simp [List.intercalate, List.intersperse] at ih ⊢
        exact ih
    · simp only [splitChars, if_neg hc]
      cases hs : splitChars sep cs with
      | nil => exact absurd hs (splitChars_ne_nil _ _)
      | cons w ws =>
        rw [hs] at ih
        cases ws with
        | nil => simp [List.intercalate, List.intersperse] at ih ⊢; exact ih
        | cons v vs => simp [List.intercalate, List.intersperse] at ih ⊢; exact ih

theorem stringsSplit_append (a b : String) (h : ' ' ∉ a.data) :
    stringsSplit (a ++ " " ++ b) ' ' = a :: stringsSplit b ' ' := by
  have : (a ++ " " ++ b).data = a.data ++ ' ' :: b.data := by
    simp [String.data_append]
  simp [stringsSplit, this, splitChars_append _ _ _ h]

theorem stringsSplit_no_space (a : String) (h : ' ' ∉ a.data) :
    stringsSplit a ' ' = [a] := by
  simp [stringsSplit, splitChars_no_sep _ _ h]

theorem stringsJoin_stringsSplit (s : String) :
    stringsJoin (stringsSplit s ' ') " " = s := by
  have h := intercalate_splitChars ' ' s.data
  simp only [stringsJoin, stringsSplit, List.map_map]
  have hid : (String.data ∘ String.mk) = id := rfl
  rw [hid, List.map_id]
  show String.mk (List.intercalate [' '] (splitChars ' ' s.data)) = s
  rw [h]


theorem splitChars_intercalate (ws : List (List Char)) (hne : ws ≠ [])
    (h : ∀ w ∈ ws, ' ' ∉ w) : splitChars ' ' (List.intercalate [' '] ws) = ws := by
  induction ws with
  | nil => exact absurd rfl hne
  | cons w rest ih =>
    have hw : ' ' ∉ w := h w (List.mem_cons_self _ _)
    cases rest with
    | nil => simpa [List.intercalate, List.intersperse] using splitChars_no_sep ' ' w hw
    | cons v vs =>
      have ih2 := ih (by simp) (fun x hx => h x (List.mem_cons_of_mem _ hx))
      have e : List.intercalate [' '] (w :: v :: vs) =
          w ++ ' ' :: List.intercalate [' '] (v :: vs) := by
        simp [List.intercalate, List.intersperse]
      rw [e, splitChars_append _ _ _ hw, ih2]

theorem fieldsChars_token_append (w rest : List Char) (hne : w ≠ [])
    (hw : ∀ c ∈ w, isSpaceChar c = false) :
    fieldsChars (w ++ ' ' :: rest) = w :: fieldsChars rest := by
  induction w with
  | nil => exact absurd rfl hne
  | cons c cs ih =>
    have hc : isSpaceChar c = false := hw c (List.mem_cons_self _ _)
    cases cs with
    | nil =>
      have hsp : isSpaceChar ' ' = true := by decide
      simp [fieldsChars, hc, hsp]
    | cons d ds =>
      have hd : isSpaceChar d = false := hw d (List.mem_cons_of_mem _ (List.mem_cons_self _ _))
      have ih2 := ih (by simp) (fun x hx => hw x (List.mem_cons_of_mem _ hx))
      rw [List.cons_append, List.cons_append, fieldsChars]
      rw [← List.cons_append, ih2]
      simp [hc, hd]

theorem fieldsChars_token (w : List Char) (hne : w ≠ [])
    (hw : ∀ c ∈ w, isSpaceChar c = false) : fieldsChars w = [w] := by
  induction w with
  | nil => exact absurd rfl hne
  | cons c cs ih =>
    have hc : isSpaceChar c = false := hw c (List.mem_cons_self _ _)
    cases cs with
    | nil => simp [fieldsChars, hc]
    | cons d ds =>
      have hd : isSpaceChar d = false := hw d (List.mem_cons_of_mem _ (List.mem_cons_self _ _))
      have ih2 := ih (by simp) (fun x hx => hw x (List.mem_cons_of_mem _ hx))
      rw [fieldsChars, ih2]
      simp [hc, hd]

theorem fieldsChars_intercalate (ws : List (List Char))
    (h : ∀ w ∈ ws, w ≠ [] ∧ ∀ c ∈ w, isSpaceChar c = false) :
    fieldsChars (List.intercalate [' '] ws) = ws := by
  induction ws with
  | nil => rfl
  | cons w rest ih =>
    have hw := h w (List.mem_cons_self _ _)
    cases rest with
    | nil => simpa [List.intercalate, List.intersperse] using fieldsChars_token w hw.1 hw.2
    | cons v vs =>
      have ih2 := ih (fun x hx => h x (List.mem_cons_of_mem _ hx))
      have e : List.intercalate [' '] (w :: v :: vs) =
          w ++ ' ' :: List.intercalate [' '] (v :: vs) := by
        simp [List.intercalate, List.intersperse]
      rw [e, fieldsChars_token_append _ _ hw.1 hw.2, ih2]

theorem isToken_data {t : String} (h : isToken t = true) :
    t.data ≠ [] ∧ ∀ c ∈ t.data, isSpaceChar c = false := by
  simp only [isToken, Bool.and_eq_true, Bool.not_eq_true', List.all_eq_true] at h
  refine ⟨?_, fun c hc => by simpa using h.2 c hc⟩
  intro e
  simp [e] at h

theorem isToken_no_space {t : String} (h : isToken t = true) : ' ' ∉ t.data := by
  intro hm
  have := (isToken_data h).2 ' ' hm
  exact absurd this (by decide)

theorem map_mk_map_data (toks : List String) :
    (toks.map String.data).map String.mk = toks := by
  simp [List.map_map, Function.comp_def]


/-! ## The command dispatcher -/

theorem handleTokens_unaddressed (l : Lorebot) (channel first cmd : String)
    (rest : List String) (h : parseUserID first ≠ l.LorebotID) :
    l.handleTokens channel (first :: cmd :: rest) = some l := by
  simp [Lorebot.handleTokens, h]

theorem HandleMessage_no_space (l : Lorebot) (ev : MessageEvent) (h : ' ' ∉ ev.Text.data) :
    l.HandleMessage ev = none := by
  simp [Lorebot.HandleMessage, stringsSplit_no_space _ h, Lorebot.handleTokens]

/-! ## C6: messages not addressed to the bot -/

/-- C6 at its failing inputs: a text of one word, and the empty text, neither
of which resolves to the bot's identifier `UBOT`, make `HandleMessage` fail
(index 1 of a slice of length 1 at line 63) instead of returning. -/
theorem unaddressed_single_word_fails :
    parseUserID "hello" ≠ (sampleBot [] []).LorebotID ∧
    stringsSplit "hello" ' ' = ["hello"] ∧
    (sampleBot [] []).HandleMessage ⟨"C", "hello"⟩ = none ∧
    parseUserID "" ≠ (sampleBot [] []).LorebotID ∧
    stringsSplit "" ' ' = [""] ∧
    (sampleBot [] []).HandleMessage ⟨"C", ""⟩ = none :=
  ⟨by decide, by decide, rfl, by decide, by decide, rfl⟩

/-! ## C7: tokenisation -/

/-- C7 (amended): `HandleMessage` splits on the space character only. For
every text that consists of tokens (not empty, free of whitespace) joined by
single spaces, the slice it works on is exactly the sequence of
whitespace-delimited tokens of the text, so its outcome is the outcome of lines
62 to 98 on that token sequence: two such texts with the same tokens have the
same outcome. -/
theorem tokenisation_single_space (l : Lorebot) (channel : String) (toks : List String)
    (hne : toks ≠ []) (htok : ∀ t ∈ toks, isToken t = true) :
    stringsFields (stringsJoin toks " ") = toks ∧
    stringsSplit (stringsJoin toks " ") ' ' = toks ∧
    l.HandleMessage ⟨channel, stringsJoin toks " "⟩ = l.handleTokens channel toks := by
  have hsplit : stringsSplit (stringsJoin toks " ") ' ' = toks := by
    have h := splitChars_intercalate (toks.map String.data) (by simpa using hne)
      (by
        intro w hw
        obtain ⟨t, ht, rfl⟩ := List.mem_map.1 hw
        exact isToken_no_space (htok t ht))
    show (splitChars ' ' (List.intercalate [' '] (toks.map String.data))).map String.mk = toks
    rw [h, map_mk_map_data]
  refine ⟨?_, hsplit, ?_⟩
  · have h := fieldsChars_intercalate (toks.map String.data)
      (by
        intro w hw
        obtain ⟨t, ht, rfl⟩ := List.mem_map.1 hw
        exact isToken_data (htok t ht))
    show (fieldsChars (List.intercalate [' '] (toks.map String.data))).map String.mk = toks
    rw [h, map_mk_map_data]
  · simp only [Lorebot.HandleMessage, hsplit]

/-- Witness of C7 (amended): the tokens `<@UBOT>` and `help`. -/
theorem tokenisation_single_space_witness :
    stringsFields "<@UBOT> help" = ["<@UBOT>", "help"] ∧
    stringsSplit "<@UBOT> help" ' ' = ["<@UBOT>", "help"] :=
  have h := tokenisation_single_space (sampleBot [] []) "C" ["<@UBOT>", "help"] (by decide)
    (by decide)
  ⟨h.1, h.2.1⟩

/-- C7 as stated fails: the texts `<@UBOT> help`, `<@UBOT>  help` (two spaces)
and `<@UBOT>` tab `help` have the same whitespace-delimited tokens; the first
enqueues the usage text, the second enqueues nothing (its second field is
empty), the third fails at line 63 (its only field is the whole text). -/
theorem tokenisation_counterexample :
    stringsFields "<@UBOT>  help" = stringsFields "<@UBOT> help" ∧
    stringsFields "<@UBOT>\thelp" = stringsFields "<@UBOT> help" ∧
    ((sampleBot [] []).HandleMessage ⟨"C", "<@UBOT> help"⟩).map (fun b => b.MessageQueue) =
      some [⟨"C", usageText⟩] ∧
    ((sampleBot [] []).HandleMessage ⟨"C", "<@UBOT>  help"⟩).map (fun b => b.MessageQueue) =
      some [] ∧
    ((sampleBot [] []).HandleMessage ⟨"C", "<@UBOT>\thelp"⟩).isNone = true := by
  decide

theorem line_step (out : String) (r : Lore) :
    out ++ "<@" ++ r.UserID ++ ">" ++ ": " ++ r.Message ++ "\n" = out ++ (loreLine r ++ "\n") := by
  apply String.ext
  simp only [loreLine, String.data_append, List.append_assoc]
  rfl

theorem foldl_listing (rows : List Lore) :
    ∀ out : String,
      rows.foldl
        (fun out lore => out ++ "<@" ++ lore.UserID ++ ">" ++ ": " ++ lore.Message ++ "\n") out =
      out ++ listing rows := by
  induction rows with
  | nil =>
    intro out
    apply String.ext
    simp [listing]
  | cons r rest ih =>
    intro out
    rw [List.foldl_cons, ih, line_step]
    apply String.ext
    simp only [listing, String.data_append, List.append_assoc]

theorem formatLores_listing (rows : List Lore) : formatLores rows = listing rows := by
  have h := foldl_listing rows ""
  simp only [formatLores]
  rw [h]
  apply String.ext
  simp [String.data_append]

/-! ## C8: help -/

/-- C8 (amended): whatever the store holds, on a text whose first field
resolves to the bot's identifier and whose second field is `help`, the fields
being those of `strings.Split(text, " ")` (separated by single space
characters), `HandleMessage` enqueues exactly one message, to the event's
channel, with the fixed usage text, and makes no call on the store. -/
theorem help_usage (l : Lorebot) (ev : MessageEvent) (first : String) (rest : List String)
    (hs : stringsSplit ev.Text ' ' = first :: "help" :: rest)
    (hb : parseUserID first = l.LorebotID) :
    ∃ b, l.HandleMessage ev = some b ∧
      b.MessageQueue = l.MessageQueue ++
        [⟨ev.Channel, "Usage: @lorebot <help | recent | user <username> | search <query>>"⟩] ∧
      b.Pg = l.Pg := by
  refine ⟨l.send ⟨ev.Channel, usageText⟩, ?_, rfl, rfl⟩
  simp [Lorebot.HandleMessage, hs, Lorebot.handleTokens, hb]

/-- Witness of C8 (amended): `<@UBOT> help` with a store of one row. -/
theorem help_usage_witness :
    ∃ b, (sampleBot [⟨"UA", "hi", 0⟩] []).HandleMessage ⟨"C", "<@UBOT> help"⟩ = some b ∧
      b.MessageQueue =
        [] ++ [⟨"C", "Usage: @lorebot <help | recent | user <username> | search <query>>"⟩] ∧
      b.Pg = sampleStore [⟨"UA", "hi", 0⟩] :=
  help_usage (sampleBot [⟨"UA", "hi", 0⟩] []) ⟨"C", "<@UBOT> help"⟩ "<@UBOT>" []
    (by decide) (by decide)

/-- C8 as stated fails: the whitespace-delimited tokens of `<@UBOT>  help` (two
spaces) and of ` <@UBOT> help` (a leading space) are the bot's mention and
`help`, yet nothing is enqueued: the fields of the first text are the mention,
the empty string and `help`, those of the second start with the empty string. -/
theorem help_usage_counterexample :
    parseUserID "<@UBOT>" = (sampleBot [] []).LorebotID ∧
    stringsFields "<@UBOT>  help" = ["<@UBOT>", "help"] ∧
    stringsSplit "<@UBOT>  help" ' ' = ["<@UBOT>", "", "help"] ∧
    ((sampleBot [] []).HandleMessage ⟨"C", "<@UBOT>  help"⟩).map (fun b => b.MessageQueue) =
      some [] ∧
    stringsFields " <@UBOT> help" = ["<@UBOT>", "help"] ∧
    stringsSplit " <@UBOT> help" ' ' = ["", "<@UBOT>", "help"] ∧
    ((sampleBot [] []).HandleMessage ⟨"C", " <@UBOT> help"⟩).map (fun b => b.MessageQueue) =
      some [] := by
  decide

/-! ## C9: the arity of `user` -/

/-- C9 (amended): on a text whose first field resolves to the bot's identifier
and whose second field is `user`, the fields being those of
`strings.Split(text, " ")` (an empty field, as left by a doubled or trailing
space, counts): with zero or with two or more further fields `HandleMessage`
returns with the queue and the store (call log included) as they were; with
exactly one further field `u` it makes the one call
`LoreForUser(parseUserID(u))` and enqueues exactly one message, to the event's
channel, whose body is the line `"<@" + author + ">: " + content` of each row
of the answer, in order, each followed by a newline; with no rows the body is
empty. -/
theorem user_arity (l : Lorebot) (ev : MessageEvent) (first : String) (rest : List String)
    (hs : stringsSplit ev.Text ' ' = first :: "user" :: rest)
    (hb : parseUserID first = l.LorebotID) :
    (rest.length ≠ 1 → l.HandleMessage ev = some l) ∧
    (∀ u, rest = [u] →
      ∃ b rows, l.HandleMessage ev = some b ∧
        (l.Pg.LoreForUser (parseUserID u)).1 = some rows ∧
        b.MessageQueue = l.MessageQueue ++ [⟨ev.Channel, listing rows⟩] ∧
        (rows = [] → b.MessageQueue = l.MessageQueue ++ [⟨ev.Channel, ""⟩]) ∧
        b.Pg.calls = l.Pg.calls ++ [PgCall.LoreForUser (parseUserID u)] ∧
        b.Pg.lores = l.Pg.lores) := by
  constructor
  · intro hlen
    simp [Lorebot.HandleMessage, hs, Lorebot.handleTokens, hb, hlen]
  · intro u hu
    subst hu
    have hq : (({ l with Pg := (l.Pg.LoreForUser (parseUserID u)).2 }).shareLores ev.Channel
        (l.Pg.LoreForUser (parseUserID u)).1).MessageQueue =
        l.MessageQueue ++ [⟨ev.Channel,
          listing (l.Pg.lores.filter fun r => decide (r.UserID = parseUserID u))⟩] := by
      simp [PostgresClient.LoreForUser, Lorebot.shareLores, Lorebot.send, formatLores_listing]
    refine ⟨({ l with Pg := (l.Pg.LoreForUser (parseUserID u)).2 }).shareLores ev.Channel
      (l.Pg.LoreForUser (parseUserID u)).1,
      l.Pg.lores.filter fun r => decide (r.UserID = parseUserID u), ?_, rfl, hq, ?_, rfl, rfl⟩
    · simp [Lorebot.HandleMessage, hs, Lorebot.handleTokens, hb]
    · intro he
      rw [hq, he]
      rfl

/-- Witness of C9 (amended): `<@UBOT> user <@UA>` on a store with rows of two
authors. -/
theorem user_arity_witness :
    ∃ b rows,
      (sampleBot [⟨"UA", "hi", 0⟩, ⟨"UB", "yo", 0⟩] []).HandleMessage
        ⟨"C", "<@UBOT> user <@UA>"⟩ = some b ∧
      ((sampleBot [⟨"UA", "hi", 0⟩, ⟨"UB", "yo", 0⟩] []).Pg.LoreForUser
        (parseUserID "<@UA>")).1 = some rows ∧
      b.MessageQueue = [] ++ [⟨"C", listing rows⟩] ∧
      (rows = [] → b.MessageQueue = [] ++ [⟨"C", ""⟩]) ∧
      b.Pg.calls = [] ++ [PgCall.LoreForUser (parseUserID "<@UA>")] ∧
      b.Pg.lores = [⟨"UA", "hi", 0⟩, ⟨"UB", "yo", 0⟩] :=
  (user_arity (sampleBot [⟨"UA", "hi", 0⟩, ⟨"UB", "yo", 0⟩] []) ⟨"C", "<@UBOT> user <@UA>"⟩
    "<@UBOT>" ["<@UA>"] (by decide) (by decide)).2 "<@UA>" rfl

/-- C9 as stated fails. The text `<@UBOT> user ` (a trailing space) has no
token after `user`, yet its third field is the empty string: `LoreForUser` is
called with the empty identifier and a message is enqueued. The text
`<@UBOT> user  <@UA>` (two spaces) has exactly one token after `user`, yet it
has two further fields: no call is made and nothing is enqueued. -/
theorem user_arity_counterexample :
    stringsFields "<@UBOT> user " = ["<@UBOT>", "user"] ∧
    ((sampleBot [⟨"UA", "hi", 0⟩] []).HandleMessage ⟨"C", "<@UBOT> user "⟩).map
      (fun b => (b.Pg.calls, b.MessageQueue)) =
      some ([PgCall.LoreForUser ""], [⟨"C", ""⟩]) ∧
    stringsFields "<@UBOT> user  <@UA>" = ["<@UBOT>", "user", "<@UA>"] ∧
    ((sampleBot [⟨"UA", "hi", 0⟩] []).HandleMessage ⟨"C", "<@UBOT> user  <@UA>"⟩).map
      (fun b => (b.Pg.calls, b.MessageQueue)) = some ([], []) := by
  decide

/-! ## C10: the query of `search` -/

theorem search_text_split (first rest : String) (h : ' ' ∉ first.data) :
    stringsSplit (first ++ " search " ++ rest) ' ' =
      first :: "search" :: stringsSplit rest ' ' := by
  have e : first ++ " search " ++ rest = first ++ " " ++ ("search" ++ " " ++ rest) := by
    apply String.ext
    simp only [String.data_append, List.append_assoc]
    rfl
  rw [e, stringsSplit_append _ _ h, stringsSplit_append _ _ (by decide)]

theorem search_only_split (first : String) (h : ' ' ∉ first.data) :
    stringsSplit (first ++ " search") ' ' = [first, "search"] := by
  have e : first ++ " search" = first ++ " " ++ "search" := by
    apply String.ext
    simp only [String.data_append, List.append_assoc]
    rfl
  rw [e, stringsSplit_append _ _ h, stringsSplit_no_space _ (by decide)]

theorem stringsSplit_join_tokens (toks : List String) (hne : toks ≠ [])
    (htok : ∀ t ∈ toks, isToken t = true) :
    stringsSplit (stringsJoin toks " ") ' ' = toks := by
  have h := splitChars_intercalate (toks.map String.data) (by simpa using hne)
    (by
      intro w hw
      obtain ⟨t, ht, rfl⟩ := List.mem_map.1 hw
      exact isToken_no_space (htok t ht))
  show (splitChars ' ' (List.intercalate [' '] (toks.map String.data))).map String.mk = toks
  rw [h, map_mk_map_data]

/-- C10 (amended): for every `n >= 1`, tokens `t1..tn` (not empty, free of
whitespace) and a first field that resolves to the bot's identifier,
`HandleMessage` on the text `first search t1 ... tn` (single spaces) has the
fields `first`, `search`, `t1`, ..., `tn`, makes exactly one call on the store,
`SearchLore` with the tokens joined by single spaces as the one query string,
and enqueues one message listing the rows of the answer; on every text whose
fields, as `strings.Split(text, " ")` gives them, are `first` and `search` and
no more, it makes no call and enqueues nothing. -/
theorem search_joined (l : Lorebot) (channel first : String) (toks : List String)
    (hsp : ' ' ∉ first.data) (hb : parseUserID first = l.LorebotID)
    (hne : toks ≠ []) (htok : ∀ t ∈ toks, isToken t = true) :
    (stringsSplit (first ++ " search " ++ stringsJoin toks " ") ' ' =
        first :: "search" :: toks ∧
      ∃ b rows,
        l.HandleMessage ⟨channel, first ++ " search " ++ stringsJoin toks " "⟩ = some b ∧
        (l.Pg.SearchLore (stringsJoin toks " ")).1 = some rows ∧
        b.Pg.calls = l.Pg.calls ++ [PgCall.SearchLore (stringsJoin toks " ")] ∧
        b.MessageQueue = l.MessageQueue ++ [⟨channel, listing rows⟩] ∧
        b.Pg.lores = l.Pg.lores) ∧
    (∀ ev : MessageEvent, stringsSplit ev.Text ' ' = [first, "search"] →
      l.HandleMessage ev = some l) := by
  have hS := stringsSplit_join_tokens toks hne htok
  have hsplit : stringsSplit (first ++ " search " ++ stringsJoin toks " ") ' ' =
      first :: "search" :: toks := by
    rw [search_text_split _ _ hsp, hS]
  refine ⟨⟨hsplit, ?_⟩, ?_⟩
  · have hq : (({ l with Pg := (l.Pg.SearchLore (stringsJoin toks " ")).2 }).shareLores channel
        (l.Pg.SearchLore (stringsJoin toks " ")).1).MessageQueue =
        l.MessageQueue ++ [⟨channel, listing
          (l.Pg.lores.filter fun r =>
            containsChars (stringsJoin toks " ").data r.Message.data)⟩] := by
      simp [PostgresClient.SearchLore, Lorebot.shareLores, Lorebot.send, formatLores_listing]
    refine ⟨({ l with Pg := (l.Pg.SearchLore (stringsJoin toks " ")).2 }).shareLores channel
      (l.Pg.SearchLore (stringsJoin toks " ")).1, _, ?_, rfl, rfl, hq, rfl⟩
    cases toks with
    | nil => exact absurd rfl hne
    | cons t ts =>
      simp [Lorebot.HandleMessage, hsplit, Lorebot.handleTokens, hb]
  · intro ev hev
    simp [Lorebot.HandleMessage, hev, Lorebot.handleTokens, hb]

/-- Witness of C10 (amended): the tokens `alpha`, `beta` give the one query
`alpha beta`. -/
theorem search_joined_witness :
    stringsSplit "<@UBOT> search alpha beta" ' ' = ["<@UBOT>", "search", "alpha", "beta"] ∧
    ∃ b rows,
      (sampleBot [⟨"UA", "alpha beta gamma", 0⟩] []).HandleMessage
        ⟨"C", "<@UBOT> search alpha beta"⟩ = some b ∧
      ((sampleBot [⟨"UA", "alpha beta gamma", 0⟩] []).Pg.SearchLore "alpha beta").1 = some rows ∧
      b.Pg.calls = [PgCall.SearchLore "alpha beta"] ∧
      b.MessageQueue = [⟨"C", listing rows⟩] ∧
      b.Pg.lores = [⟨"UA", "alpha beta gamma", 0⟩] :=
  (search_joined (sampleBot [⟨"UA", "alpha beta gamma", 0⟩] []) "C" "<@UBOT>" ["alpha", "beta"]
    (by decide) (by decide) (by decide) (by decide)).1

/-- C10 as stated fails: the text `<@UBOT> search ` (a trailing space) has no
token after `search`, yet its third field is the empty string: `SearchLore` is
called with the empty query and a message listing the answer is enqueued. -/
theorem search_joined_counterexample :
    stringsFields "<@UBOT> search " = ["<@UBOT>", "search"] ∧
    stringsSplit "<@UBOT> search " ' ' = ["<@UBOT>", "search", ""] ∧
    ((sampleBot [⟨"UA", "hi", 0⟩] []).HandleMessage ⟨"C", "<@UBOT> search "⟩).map
      (fun b => (b.Pg.calls, b.MessageQueue)) =
      some ([PgCall.SearchLore ""], [⟨"C", "<@UA>: hi\n"⟩]) := by
  decide

/-! ## C11: a matched command with no rows, and an unmatched command -/

theorem handleTokens_unknown (l : Lorebot) (channel first cmd : String) (rest : List String)
    (hcmd : cmd ∉ knownCommands) :
    l.handleTokens channel (first :: cmd :: rest) = some l := by
  simp only [knownCommands, List.mem_cons, List.mem_singleton, List.not_mem_nil, or_false,
    not_or] at hcmd
  obtain ⟨h1, h2, h3, h4⟩ := hcmd
  by_cases hb : parseUserID first = l.LorebotID
  · simp [Lorebot.handleTokens, hb, h1, h2, h3, h4, Lorebot.shareLores]
  · simp [Lorebot.handleTokens, hb]

/-- C11: on a store without Records, `HandleMessage` on a text addressed to the
bot with the command `recent` enqueues exactly one message, whose body is the
empty string; on a text addressed to the bot with a command that is none of
`help`, `recent`, `user`, `search` it enqueues nothing; so the two queues
differ. -/
theorem recent_empty_vs_unmatched (l : Lorebot) (ev ev2 : MessageEvent)
    (first first2 cmd : String) (rest rest2 : List String)
    (hs : stringsSplit ev.Text ' ' = first :: "recent" :: rest)
    (hb : parseUserID first = l.LorebotID)
    (hs2 : stringsSplit ev2.Text ' ' = first2 :: cmd :: rest2)
    (hcmd : cmd ∉ knownCommands)
    (h0 : l.Pg.lores = []) :
    ∃ b, l.HandleMessage ev = some b ∧
      b.MessageQueue = l.MessageQueue ++ [⟨ev.Channel, ""⟩] ∧
      l.HandleMessage ev2 = some l ∧
      b.MessageQueue ≠ l.MessageQueue := by
  refine ⟨({ l with Pg := l.Pg.RecentLore.2 }).shareLores ev.Channel l.Pg.RecentLore.1,
    ?_, ?_, ?_, ?_⟩
  · simp [Lorebot.HandleMessage, hs, Lorebot.handleTokens, hb]
  · simp [PostgresClient.RecentLore, h0, Lorebot.shareLores, Lorebot.send, formatLores]
  · simp only [Lorebot.HandleMessage, hs2]
    exact handleTokens_unknown l ev2.Channel first2 cmd rest2 hcmd
  · simp [PostgresClient.RecentLore, h0, Lorebot.shareLores, Lorebot.send]

/-- Witness of C11: `<@UBOT> recent` and `<@UBOT> dance` on the empty store. -/
theorem recent_empty_vs_unmatched_witness :
    ∃ b, (sampleBot [] []).HandleMessage ⟨"C", "<@UBOT> recent"⟩ = some b ∧
      b.MessageQueue = [] ++ [⟨"C", ""⟩] ∧
      (sampleBot [] []).HandleMessage ⟨"C", "<@UBOT> dance"⟩ = some (sampleBot [] []) ∧
      b.MessageQueue ≠ [] :=
  recent_empty_vs_unmatched (sampleBot [] []) ⟨"C", "<@UBOT> recent"⟩ ⟨"C", "<@UBOT> dance"⟩
    "<@UBOT>" "<@UBOT>" "dance" [] [] (by decide) (by decide) (by decide) (by decide) rfl

/-! ## C13: unknown command -/

/-- Unknown command on a text of at least two fields: when the first field
resolves to the bot's identifier and the second field is none of `help`,
`recent`, `user`, `search`, `HandleMessage` returns with the bot state as it
was: no call on the store (the call log is unchanged), the rows unchanged, the
queue unchanged. -/
theorem unknown_command_two_fields (l : Lorebot) (ev : MessageEvent) (first cmd : String)
    (rest : List String)
    (hs : stringsSplit ev.Text ' ' = first :: cmd :: rest)
    (hb : parseUserID first = l.LorebotID)
    (hcmd : cmd ≠ "help" ∧ cmd ≠ "recent" ∧ cmd ≠ "user" ∧ cmd ≠ "search") :
    ∃ b, l.HandleMessage ev = some b ∧ b.Pg = l.Pg ∧ b.MessageQueue = l.MessageQueue := by
  refine ⟨l, ?_, rfl, rfl⟩
  simp [Lorebot.HandleMessage, hs, Lorebot.handleTokens, hb, hcmd.1, hcmd.2.1, hcmd.2.2.1,
    hcmd.2.2.2, Lorebot.shareLores]

/-- C13 at its failing inputs: the text `<@UBOT>` tab `dance` is addressed to
the bot `UBOT` and its second token `dance` is no command, and the text
`<@UBOT>` is addressed to the bot and has no command at all; each has a single
field, so `HandleMessage` fails at line 63 (index 1 of a slice of length 1)
instead of ignoring the message. -/
theorem unknown_command_fails :
    parseUserID "<@UBOT>" = (sampleBot [] []).LorebotID ∧
    stringsFields "<@UBOT>\tdance" = ["<@UBOT>", "dance"] ∧
    "dance" ∉ knownCommands ∧
    stringsSplit "<@UBOT>\tdance" ' ' = ["<@UBOT>\tdance"] ∧
    ((sampleBot [] []).HandleMessage ⟨"C", "<@UBOT>\tdance"⟩).isNone = true ∧
    stringsFields "<@UBOT>" = ["<@UBOT>"] ∧
    stringsSplit "<@UBOT>" ' ' = ["<@UBOT>"] ∧
    ((sampleBot [] []).HandleMessage ⟨"C", "<@UBOT>"⟩).isNone = true := by
  decide

/-! ## C12: the format of a listing -/

theorem stringsJoin_cons_cons (a b : String) (rest : List String) (sep : String) :
    stringsJoin (a :: b :: rest) sep = a ++ sep ++ stringsJoin (b :: rest) sep := by
  apply String.ext
  simp [stringsJoin, List.intercalate, List.intersperse, String.data_append]

theorem stringsJoin_singleton (a sep : String) : stringsJoin [a] sep = a := by
  apply String.ext
  simp [stringsJoin, List.intercalate, List.intersperse]

theorem foldl_lines (rows : List Lore) :
    ∀ (r : Lore) (out : String),
      (r :: rows).foldl
        (fun out lore => out ++ "<@" ++ lore.UserID ++ ">" ++ ": " ++ lore.Message ++ "\n") out =
      out ++ (stringsJoin ((r :: rows).map loreLine) "\n" ++ "\n") := by
  induction rows with
  | nil =>
    intro r out
    simp only [List.foldl_cons, List.foldl_nil, List.map_cons, List.map_nil,
      stringsJoin_singleton]
    exact line_step out r
  | cons r2 rest ih =>
    intro r out
    rw [List.foldl_cons, ih r2, line_step]
    simp only [List.map_cons, stringsJoin_cons_cons]
    apply String.ext
    simp only [String.data_append, List.append_assoc]

theorem formatLores_lines (rows : List Lore) (hne : rows ≠ []) :
    formatLores rows = stringsJoin (rows.map loreLine) "\n" ++ "\n" := by
  cases rows with
  | nil => exact absurd rfl hne
  | cons r rest =>
    have h := foldl_lines rest r ""
    simp only [formatLores]
    rw [h]
    apply String.ext
    simp [String.data_append]

theorem shareLores_rows (l : Lorebot) (channel : String) (rows : List Lore) (hne : rows ≠ []) :
    (l.shareLores channel (some rows)).MessageQueue =
      l.MessageQueue ++ [⟨channel, stringsJoin (rows.map loreLine) "\n" ++ "\n"⟩] := by
  simp [Lorebot.shareLores, Lorebot.send, formatLores_lines rows hne]

/-- C12 (amended): for every non-empty list of Records `r1..rn` returned by the
query of a `recent`, `user` or `search` command, `HandleMessage` enqueues
exactly one message, to the event's channel, whose body is the lines
`"<@" + ri.author + ">: " + ri.content`, in the order returned, each followed
by a newline character: the lines joined by newlines, and one more newline at
the end. -/
theorem result_formatting (l : Lorebot) (ev : MessageEvent) (first cmd : String)
    (fields : List String)
    (hs : stringsSplit ev.Text ' ' = first :: cmd :: fields)
    (hb : parseUserID first = l.LorebotID) :
    (cmd = "recent" → ∀ rs, l.Pg.RecentLore.1 = some rs → rs ≠ [] →
      ∃ b, l.HandleMessage ev = some b ∧
        b.MessageQueue =
          l.MessageQueue ++ [⟨ev.Channel, stringsJoin (rs.map loreLine) "\n" ++ "\n"⟩]) ∧
    (cmd = "user" → ∀ u rs, fields = [u] → (l.Pg.LoreForUser (parseUserID u)).1 = some rs →
      rs ≠ [] →
      ∃ b, l.HandleMessage ev = some b ∧
        b.MessageQueue =
          l.MessageQueue ++ [⟨ev.Channel, stringsJoin (rs.map loreLine) "\n" ++ "\n"⟩]) ∧
    (cmd = "search" → ∀ rs, fields ≠ [] →
      (l.Pg.SearchLore (stringsJoin fields " ")).1 = some rs → rs ≠ [] →
      ∃ b, l.HandleMessage ev = some b ∧
        b.MessageQueue =
          l.MessageQueue ++ [⟨ev.Channel, stringsJoin (rs.map loreLine) "\n" ++ "\n"⟩]) := by
  refine ⟨?_, ?_, ?_⟩
  · intro hc rs hrs hne
    subst hc
    refine ⟨({ l with Pg := l.Pg.RecentLore.2 }).shareLores ev.Channel (some rs), ?_, ?_⟩
    · simp [Lorebot.HandleMessage, hs, Lorebot.handleTokens, hb, ← hrs]
    · exact shareLores_rows _ _ rs hne
  · intro hc u rs hf hrs hne
    subst hc
    subst hf
    refine ⟨({ l with Pg := (l.Pg.LoreForUser (parseUserID u)).2 }).shareLores ev.Channel
      (some rs), ?_, ?_⟩
    · simp [Lorebot.HandleMessage, hs, Lorebot.handleTokens, hb, ← hrs]
    · exact shareLores_rows _ _ rs hne
  · intro hc rs hf hrs hne
    subst hc
    refine ⟨({ l with Pg := (l.Pg.SearchLore (stringsJoin fields " ")).2 }).shareLores ev.Channel
      (some rs), ?_, ?_⟩
    · cases fields with
      | nil => exact absurd rfl hf
      | cons f fs => simp [Lorebot.HandleMessage, hs, Lorebot.handleTokens, hb, ← hrs]
    · exact shareLores_rows _ _ rs hne

/-- Witness of C12 (amended): `<@UBOT> recent` on a store of two rows (the
newest row comes first). -/
theorem result_formatting_witness :
    ∃ b, (sampleBot [⟨"UA", "hi", 0⟩, ⟨"UB", "yo", 0⟩] []).HandleMessage
        ⟨"C", "<@UBOT> recent"⟩ = some b ∧
      b.MessageQueue = [⟨"C", "<@UB>: yo\n<@UA>: hi\n"⟩] :=
  (result_formatting (sampleBot [⟨"UA", "hi", 0⟩, ⟨"UB", "yo", 0⟩] []) ⟨"C", "<@UBOT> recent"⟩
    "<@UBOT>" "recent" [] (by decide) (by decide)).1 rfl
    [⟨"UB", "yo", 0⟩, ⟨"UA", "hi", 0⟩] (by decide) (by decide)

/-- C12 as stated fails: for the two rows returned by `recent` the lines joined
by a newline between consecutive lines are `<@UB>: yo`, newline, `<@UA>: hi`;
the body enqueued has one more newline at the end. -/
theorem result_formatting_counterexample :
    (sampleBot [⟨"UA", "hi", 0⟩, ⟨"UB", "yo", 0⟩] []).Pg.RecentLore.1 =
      some [⟨"UB", "yo", 0⟩, ⟨"UA", "hi", 0⟩] ∧
    stringsJoin ([⟨"UB", "yo", 0⟩, ⟨"UA", "hi", 0⟩].map loreLine) "\n" = "<@UB>: yo\n<@UA>: hi" ∧
    ((sampleBot [⟨"UA", "hi", 0⟩, ⟨"UB", "yo", 0⟩] []).HandleMessage
        ⟨"C", "<@UBOT> recent"⟩).map (fun b => b.MessageQueue) =
      some [⟨"C", "<@UB>: yo\n<@UA>: hi\n"⟩] ∧
    ("<@UB>: yo\n<@UA>: hi\n" : String) ≠ "<@UB>: yo\n<@UA>: hi" := by
  decide


/-! ## C14: mentions parse back -/

theorem replaceFirst_char (c : Char) (a b : List Char) (h : c ∉ a) :
    replaceFirst [c] [] (a ++ c :: b) = a ++ b := by
  induction a with
  | nil => simp [replaceFirst, List.isPrefixOf]
  | cons d ds ih =>
    have hd : ¬ c = d := fun e => h (e ▸ List.mem_cons_self _ _)
    have hds : c ∉ ds := fun m => h (List.mem_cons_of_mem _ m)
    simp [replaceFirst, List.isPrefixOf, hd, ih hds]

theorem parseUserID_mention_of_no_close (id : String) (h : '>' ∉ id.data) :
    parseUserID ("<@" ++ id ++ ">") = id := by
  have e0 : ("<@" ++ id ++ ">").data = [] ++ '<' :: ('@' :: id.data ++ ['>']) := by
    simp only [String.data_append, List.append_assoc]
    rfl
  have h1 : replaceFirst ['<'] [] ([] ++ '<' :: ('@' :: id.data ++ ['>'])) =
      [] ++ ('@' :: id.data ++ ['>']) := replaceFirst_char '<' [] _ (by simp)
  have h2 : replaceFirst ['>'] [] (('@' :: id.data) ++ '>' :: []) = ('@' :: id.data) ++ [] :=
    replaceFirst_char '>' ('@' :: id.data) [] (by
      intro hm
      rcases List.mem_cons.1 hm with e | m
      · exact absurd e (by decide)
      · exact h m)
  have h3 : replaceFirst ['@'] [] ([] ++ '@' :: id.data) = [] ++ id.data :=
    replaceFirst_char '@' [] _ (by simp)
  apply String.ext
  show replaceFirst ['@'] [] (replaceFirst ['>'] [] (replaceFirst ['<'] []
    ("<@" ++ id ++ ">").data)) = id.data
  rw [e0, h1]
  simp only [List.nil_append] at h3 ⊢
  rw [h2]
  simpa using h3

/-- C14: for every identifier `id` that contains none of the characters `<`,
`>` and `@`, `parseUserID("<@" + id + ">") = id`: the mention the bot writes
for an author parses back to that author. -/
theorem parseUserID_mention (id : String)
    (h : ∀ c ∈ id.data, c ≠ '<' ∧ c ≠ '>' ∧ c ≠ '@') :
    parseUserID ("<@" ++ id ++ ">") = id :=
  parseUserID_mention_of_no_close id fun hm => (h '>' hm).2.1 rfl

/-- Witness of C14: the mention of `UA`. -/
theorem parseUserID_mention_witness : parseUserID ("<@" ++ "UA" ++ ">") = "UA" :=
  parseUserID_mention "UA" (by decide)


/-! ## C15: the trigger filter -/

/-- C15: for every reaction event, if the reaction name equals `lore` then
`HandleReaction` is `HandleLoreReact` on the channel and timestamp of the
event's item; for every other name the bot state is as it was: no history
request, the store unchanged, nothing enqueued. -/
theorem trigger_filter (l : Lorebot) (ev : ReactionAddedEvent) :
    (ev.Reaction = "lore" →
      l.HandleReaction ev = l.HandleLoreReact ev.Item.Channel ev.Item.Timestamp) ∧
    (ev.Reaction ≠ "lore" →
      l.HandleReaction ev = l ∧
      (l.HandleReaction ev).SlackAPI.fetched = l.SlackAPI.fetched ∧
      (l.HandleReaction ev).Pg = l.Pg ∧
      (l.HandleReaction ev).MessageQueue = l.MessageQueue) := by
  constructor
  · intro h
    simp [Lorebot.HandleReaction, h]
  · intro h
    have e : l.HandleReaction ev = l := by simp [Lorebot.HandleReaction, h]
    rw [e]
    exact ⟨rfl, rfl, rfl, rfl⟩

/-- Witness of C15: the names `Lore` and `lorebot` are not the trigger, the
name `lore` is. -/
theorem trigger_filter_witness :
    ((sampleBot [] [⟨"1", "hi", "UA"⟩]).HandleReaction ⟨"Lore", ⟨"C", "1"⟩⟩).MessageQueue = [] ∧
    ((sampleBot [] [⟨"1", "hi", "UA"⟩]).HandleReaction ⟨"lorebot", ⟨"C", "1"⟩⟩).SlackAPI.fetched
      = [] ∧
    (sampleBot [] [⟨"1", "hi", "UA"⟩]).HandleReaction ⟨"lore", ⟨"C", "1"⟩⟩ =
      (sampleBot [] [⟨"1", "hi", "UA"⟩]).HandleLoreReact "C" "1" :=
  ⟨((trigger_filter (sampleBot [] [⟨"1", "hi", "UA"⟩]) ⟨"Lore", ⟨"C", "1"⟩⟩).2
      (by decide)).2.2.2,
   ((trigger_filter (sampleBot [] [⟨"1", "hi", "UA"⟩]) ⟨"lorebot", ⟨"C", "1"⟩⟩).2
      (by decide)).2.1,
   (trigger_filter (sampleBot [] [⟨"1", "hi", "UA"⟩]) ⟨"lore", ⟨"C", "1"⟩⟩).1 rfl⟩

/-! ## C16: delivery in order -/

theorem messageWorkerLoop_posted (params : PostMessageParameters) (msgs : List Message) :
    ∀ api : SlackClient,
      (messageWorkerLoop params api msgs).posted =
        api.posted ++ msgs.map (fun m => (⟨m.ChannelID, m.Content, params⟩ : Post)) ∧
      (messageWorkerLoop params api msgs).fetched = api.fetched ∧
      (messageWorkerLoop params api msgs).history = api.history := by
  induction msgs with
  | nil => intro api; simp [messageWorkerLoop]
  | cons m rest ih =>
    intro api
    have h := ih (api.PostMessage m.ChannelID m.Content params)
    simp only [messageWorkerLoop]
    rw [h.1, h.2.1, h.2.2]
    simp [SlackClient.PostMessage]

/-- C16: with the queue as a sequence, `MessageWorker` makes exactly one post
per queued message, in the order of the queue, each with the message's channel
and content unchanged and with the parameters Username `Lorebot`, IconEmoji
`:lore:`; it makes no other call on the transport and leaves the queue empty. -/
theorem fifo_delivery (l : Lorebot) :
    (l.MessageWorker).SlackAPI.posted =
      l.SlackAPI.posted ++ l.MessageQueue.map
        (fun m => (⟨m.ChannelID, m.Content, ⟨"Lorebot", ":lore:"⟩⟩ : Post)) ∧
    (l.MessageWorker).SlackAPI.fetched = l.SlackAPI.fetched ∧
    (l.MessageWorker).MessageQueue = [] ∧
    (l.MessageWorker).Pg = l.Pg := by
  have h := messageWorkerLoop_posted ⟨"Lorebot", ":lore:"⟩ l.MessageQueue l.SlackAPI
  exact ⟨h.1, h.2.1, rfl, rfl⟩


/-! ## C17 and C18: `HandleMessage` completes, and only reads the store -/

theorem splitChars_two (s : List Char) (h : ' ' ∈ s) :
    ∃ a b rest, splitChars ' ' s = a :: b :: rest := by
  induction s with
  | nil => cases h
  | cons c cs ih =>
    by_cases hc : c = ' '
    · cases hs : splitChars ' ' cs with
      | nil => exact absurd hs (splitChars_ne_nil _ _)
      | cons w ws => exact ⟨[], w, ws, by simp [splitChars, hc, hs]⟩
    · have hcs : ' ' ∈ cs := by
        rcases List.mem_cons.1 h with e | m
        · exact absurd e.symm hc
        · exact m
      obtain ⟨a, b, rest, e⟩ := ih hcs
      exact ⟨c :: a, b, rest, by simp [splitChars, hc, e]⟩

theorem stringsSplit_two (s : String) (h : ' ' ∈ s.data) :
    ∃ first cmd rest, stringsSplit s ' ' = first :: cmd :: rest := by
  obtain ⟨a, b, rest, e⟩ := splitChars_two s.data h
  exact ⟨⟨a⟩, ⟨b⟩, rest.map String.mk, by simp [stringsSplit, e]⟩

theorem shareLores_effect (l : Lorebot) (channel : String) (lores : Option (List Lore)) :
    ((l.shareLores channel lores).MessageQueue = l.MessageQueue ∨
      ∃ m, (l.shareLores channel lores).MessageQueue = l.MessageQueue ++ [m]) ∧
    (l.shareLores channel lores).Pg = l.Pg := by
  cases lores with
  | none => exact ⟨Or.inl rfl, rfl⟩
  | some rows => exact ⟨Or.inr ⟨_, rfl⟩, rfl⟩

theorem handleTokens_effect (l : Lorebot) (channel first cmd : String) (rest : List String) :
    ∃ b, l.handleTokens channel (first :: cmd :: rest) = some b ∧
      (b.MessageQueue = l.MessageQueue ∨ ∃ m, b.MessageQueue = l.MessageQueue ++ [m]) ∧
      b.Pg.lores = l.Pg.lores ∧
      ∃ new, b.Pg.calls = l.Pg.calls ++ new ∧ new.length ≤ 1 ∧
        ∀ c ∈ new, c.isMutation = false := by
  by_cases hb : parseUserID first = l.LorebotID
  swap
  · exact ⟨l, by simp [Lorebot.handleTokens, hb], Or.inl rfl, rfl, [], by simp, by simp, by simp⟩
  by_cases h1 : cmd = "help"
  · exact ⟨l.send ⟨channel, usageText⟩, by simp [Lorebot.handleTokens, hb, h1],
      Or.inr ⟨_, rfl⟩, rfl, [], by simp [Lorebot.send], by simp, by simp⟩
  by_cases h2 : cmd = "recent"
  · have hs := shareLores_effect ({ l with Pg := l.Pg.RecentLore.2 }) channel l.Pg.RecentLore.1
    refine ⟨_, by simp [Lorebot.handleTokens, hb, h2], hs.1, ?_, [PgCall.RecentLore], ?_,
      by simp, by simp [PgCall.isMutation]⟩
    · rw [hs.2]; rfl
    · rw [hs.2]; rfl
  by_cases h3 : cmd = "user"
  · cases rest with
    | nil =>
      exact ⟨l, by simp [Lorebot.handleTokens, hb, h3], Or.inl rfl, rfl, [], by simp, by simp,
        by simp⟩
    | cons u us =>
      cases us with
      | cons v vs =>
        exact ⟨l, by simp [Lorebot.handleTokens, hb, h3], Or.inl rfl, rfl, [], by simp,
          by simp, by simp⟩
      | nil =>
        have hs := shareLores_effect ({ l with Pg := (l.Pg.LoreForUser (parseUserID u)).2 })
          channel (l.Pg.LoreForUser (parseUserID u)).1
        refine ⟨_, by simp [Lorebot.handleTokens, hb, h3], hs.1, ?_,
          [PgCall.LoreForUser (parseUserID u)], ?_, by simp, by simp [PgCall.isMutation]⟩
        · rw [hs.2]; rfl
        · rw [hs.2]; rfl
  by_cases h4 : cmd = "search"
  · cases rest with
    | nil =>
      exact ⟨l, by simp [Lorebot.handleTokens, hb, h4], Or.inl rfl, rfl, [], by simp, by simp,
        by simp⟩
    | cons u us =>
      have hs := shareLores_effect
        ({ l with Pg := (l.Pg.SearchLore (stringsJoin (u :: us) " ")).2 })
        channel (l.Pg.SearchLore (stringsJoin (u :: us) " ")).1
      refine ⟨_, by simp [Lorebot.handleTokens, hb, h4], hs.1, ?_,
        [PgCall.SearchLore (stringsJoin (u :: us) " ")], ?_, by simp,
        by simp [PgCall.isMutation]⟩
      · rw [hs.2]; rfl
      · rw [hs.2]; rfl
  · exact ⟨l, by simp [Lorebot.handleTokens, hb, h1, h2, h3, h4, Lorebot.shareLores],
      Or.inl rfl, rfl, [], by simp, by simp, by simp⟩


/-- C17: for every text with at least one space character the slice of line 61
has at least two elements and every index read by `HandleMessage` is in bounds:
the run completes, and the queue is as it was or has grown by exactly one
message. -/
theorem completes_with_space (l : Lorebot) (ev : MessageEvent) (h : ' ' ∈ ev.Text.data) :
    2 ≤ (stringsSplit ev.Text ' ').length ∧
    ∃ b, l.HandleMessage ev = some b ∧
      (b.MessageQueue = l.MessageQueue ∨ ∃ m, b.MessageQueue = l.MessageQueue ++ [m]) := by
  obtain ⟨first, cmd, rest, e⟩ := stringsSplit_two ev.Text h
  obtain ⟨b, hb, hq, _⟩ := handleTokens_effect l ev.Channel first cmd rest
  refine ⟨by simp [e], b, ?_, hq⟩
  simp only [Lorebot.HandleMessage, e]
  exact hb

/-- Witness of C17: `<@UBOT> user` (the `user` command without its argument). -/
theorem completes_with_space_witness :
    2 ≤ (stringsSplit "<@UBOT> user" ' ').length ∧
    ∃ b, (sampleBot [] []).HandleMessage ⟨"C", "<@UBOT> user"⟩ = some b ∧
      (b.MessageQueue = [] ∨ ∃ m, b.MessageQueue = [] ++ [m]) :=
  completes_with_space (sampleBot [] []) ⟨"C", "<@UBOT> user"⟩ (by decide)

/-- C18: `HandleMessage` only reads the store. For every text and store state,
either the run fails at line 63 (the text has no space character, and no call
on the store has been made before), or it returns and then the rows, counters
included, are as they were and the store received at most one call, which is
neither an insert nor an upvote. -/
theorem read_only (l : Lorebot) (ev : MessageEvent) :
    (l.HandleMessage ev = none ∧ ' ' ∉ ev.Text.data) ∨
    ∃ b, l.HandleMessage ev = some b ∧
      b.Pg.lores = l.Pg.lores ∧
      ∃ new, b.Pg.calls = l.Pg.calls ++ new ∧ new.length ≤ 1 ∧
        ∀ c ∈ new, c.isMutation = false := by
  by_cases h : ' ' ∈ ev.Text.data
  · right
    obtain ⟨first, cmd, rest, e⟩ := stringsSplit_two ev.Text h
    obtain ⟨b, hb, _, hl, hc⟩ := handleTokens_effect l ev.Channel first cmd rest
    refine ⟨b, ?_, hl, hc⟩
    simp only [Lorebot.HandleMessage, e]
    exact hb
  · left
    exact ⟨HandleMessage_no_space l ev h, h⟩

/-! ## C19: a mutation comes with its announcement -/

theorem map_eq_self_mem {f : Lore → Lore} :
    ∀ {rows : List Lore}, rows.map f = rows → ∀ r ∈ rows, f r = r := by
  intro rows
  induction rows with
  | nil => intro _ r hr; cases hr
  | cons a rest ih =>
    intro h r hr
    simp only [List.map_cons, List.cons.injEq] at h
    rcases List.mem_cons.1 hr with e | m
    · rw [e]; exact h.1
    · exact ih h.2 r m

theorem upvote_changes_rows (pg : PostgresClient) (content author : String)
    (h : pg.holds content author = true) :
    (pg.UpvoteLore author content).lores ≠ pg.lores := by
  intro e
  simp only [PostgresClient.holds, List.any_eq_true] at h
  obtain ⟨r, hr, hp⟩ := h
  have hf := map_eq_self_mem e r hr
  simp only [hp, if_true] at hf
  have hc := congrArg Lore.upvoteCount hf
  simp at hc

/-- C19: for every invocation `HandleLoreReact(channel, ts)`, the calls it
makes on the store contain one mutation (an insert or an upvote) exactly when
one message is enqueued, and none exactly when the queue is as it was; the rows
of the store differ from before exactly when a message is enqueued. An enqueued
message goes to `channel`, and message and mutation are those of the target
message, the first message of the history with timestamp `ts`: upvote with the
"Lore upvoted" text, or insert with the "Lore added" text. -/
theorem no_silent_mutation (l : Lorebot) (channelId timestamp : String) :
    ∃ new, (l.HandleLoreReact channelId timestamp).Pg.calls = l.Pg.calls ++ new ∧
      (new.countP PgCall.isMutation = 1 ↔
        ∃ msg, (l.HandleLoreReact channelId timestamp).MessageQueue = l.MessageQueue ++ [msg]) ∧
      (new.countP PgCall.isMutation = 0 ↔
        (l.HandleLoreReact channelId timestamp).MessageQueue = l.MessageQueue) ∧
      ((l.HandleLoreReact channelId timestamp).Pg.lores ≠ l.Pg.lores ↔
        ∃ msg, (l.HandleLoreReact channelId timestamp).MessageQueue = l.MessageQueue ++ [msg]) ∧
      ∀ msg, (l.HandleLoreReact channelId timestamp).MessageQueue = l.MessageQueue ++ [msg] →
        msg.ChannelID = channelId ∧
        ∃ h m, l.SlackAPI.history channelId = .ok h ∧ h.target timestamp = some m ∧
          ((new = [PgCall.LoreExists m.Text m.User, PgCall.UpvoteLore m.User m.Text] ∧
              msg.Content = "Lore upvoted: <@" ++ m.User ++ ">: " ++ m.Text) ∨
            (new = [PgCall.LoreExists m.Text m.User, PgCall.InsertLore m.User m.Text] ∧
              msg.Content = "Lore added: <@" ++ m.User ++ ">: " ++ m.Text)) := by
  have hno : ∀ msg : Message, l.MessageQueue ≠ l.MessageQueue ++ [msg] := by
    intro msg e
    have := congrArg List.length e
    simp at this
  cases hh : l.SlackAPI.history channelId with
  | error e =>
    rw [HandleLoreReact_error l channelId timestamp e hh]
    refine ⟨[], by simp [Lorebot.afterFetch], ?_, ?_, ?_, ?_⟩
    · simp [Lorebot.afterFetch]
    · simp [Lorebot.afterFetch]
    · simp [Lorebot.afterFetch]
    · intro msg hm
      exact absurd hm (hno msg)
  | ok h =>
    cases hm : h.target timestamp with
    | none =>
      rw [HandleLoreReact_none l channelId timestamp h hh hm]
      refine ⟨[], by simp [Lorebot.afterFetch], ?_, ?_, ?_, ?_⟩
      · simp [Lorebot.afterFetch]
      · simp [Lorebot.afterFetch]
      · simp [Lorebot.afterFetch]
      · intro msg hm
        exact absurd hm (hno msg)
    | some m =>
      cases hex : l.Pg.holds m.Text m.User with
      | true =>
        rw [HandleLoreReact_upvote l channelId timestamp h m hh hm hex]
        refine ⟨[PgCall.LoreExists m.Text m.User, PgCall.UpvoteLore m.User m.Text],
          by simp [PostgresClient.UpvoteLore, PostgresClient.LoreExists], ?_, ?_, ?_, ?_⟩
        · simp [PgCall.isMutation]
        · simp [PgCall.isMutation]
        · have hch := upvote_changes_rows l.Pg m.Text m.User hex
          simp only [PostgresClient.UpvoteLore, PostgresClient.LoreExists] at hch ⊢
          simp [hch]
        · intro msg hmsg
          simp only [List.append_cancel_left_eq, List.cons.injEq, and_true] at hmsg
          subst hmsg
          exact ⟨rfl, h, m, rfl, hm, Or.inl ⟨rfl, rfl⟩⟩
      | false =>
        by_cases hu : m.User = ""
        · rw [HandleLoreReact_guard l channelId timestamp h m hh hm hex hu]
          refine ⟨[PgCall.LoreExists m.Text m.User], by simp [PostgresClient.LoreExists],
            ?_, ?_, ?_, ?_⟩
          · simp [PgCall.isMutation, Lorebot.afterFetch]
          · simp [PgCall.isMutation, Lorebot.afterFetch]
          · simp [PostgresClient.LoreExists, Lorebot.afterFetch]
          · intro msg hmsg
            exact absurd hmsg (hno msg)
        · rw [HandleLoreReact_insert l channelId timestamp h m hh hm hex hu]
          refine ⟨[PgCall.LoreExists m.Text m.User, PgCall.InsertLore m.User m.Text],
            by simp [PostgresClient.InsertLore, PostgresClient.LoreExists], ?_, ?_, ?_, ?_⟩
          · simp [PgCall.isMutation]
          · simp [PgCall.isMutation]
          · simp only [PostgresClient.holds] at hex
            simp [PostgresClient.InsertLore, PostgresClient.LoreExists, hex]
          · intro msg hmsg
            simp only [List.append_cancel_left_eq, List.cons.injEq, and_true] at hmsg
            subst hmsg
            exact ⟨rfl, h, m, rfl, hm, Or.inr ⟨rfl, rfl⟩⟩

end LoreRepo
